import Mathlib

/-!
# Shared-memory to MFMA dot-operand conversion: address arithmetic

Shallow embedding of `lib/Conversion/TritonGPUToLLVM/ConvertLayoutOpToLLVM/SharedToDotOperandMFMA.cpp`.

Modelling conventions.

* An emitted `Value` of type `i32` is modelled by the natural number that is its 32-bit
  pattern; the emitted `mul` and `add` wrap at `2 ^ 32`.
* The compile-time quantities of the host program are integers: a product of `int64_t`
  values is reduced to 64 bits (`toInt64`), an `int` variable and an `int` product to 32 bits
  (`toInt`; signed overflow, undefined in C++, is modelled as the two's complement wrap), and
  `i32_val(x)` is the 32-bit pattern of `x`.  Instruction extents, repetition counts, warp
  counts and loop counters are non-negative and are received as natural numbers.  The length
  of the offset vector and its subscripts are bounded by the memory that holds the vector and
  are natural numbers.
* The precondition of `isTransposed` is modelled with explicit `% 2 ^ 32` and a 64-bit mask.
* A failed `assert`, an out-of-range subscript and a division by zero are fatal; they are
  the `Except.error` results of the model.
* A `SmallVector<Value>` is a list of `Option Nat`; `none` is the default-constructed
  (null) `Value` the vector is filled with before the loops assign its entries.
* Shared memory is a map from element addresses to scalars; the values a loader emits
  (loaded scalars, vectors built by `insert_element`, `bitcast` results) are the terms of
  `LLVal`, and the packed register `packLLElements` returns is the list of these values.
-/

namespace SharedToDotOperandMFMA

set_option maxRecDepth 4096

/-- Fatal conditions of the conversion. -/
inductive Err where
  | malformedOrder
  | unexpectedOperandIdx
  | divByZero
  | indexOutOfRange
  deriving DecidableEq, Repr

deriving instance DecidableEq for Except

/-- The vector of emitted offsets: `none` is an entry not assigned yet. -/
abbrev OffsetList := List (Option Nat)

/-- Unsigned division `udiv(a, b)` of two `i32` values. -/
def udiv (a b : Nat) : Except Err Nat :=
  if b = 0 then .error .divByZero else .ok (a / b)

/-- Unsigned remainder `urem(a, b)` of two `i32` values. -/
def urem (a b : Nat) : Except Err Nat :=
  if b = 0 then .error .divByZero else .ok (a % b)

/-- Compile-time integer division `a / b` of the host program. -/
def cdiv (a b : Nat) : Except Err Nat :=
  if b = 0 then .error .divByZero else .ok (a / b)

/-- Assignment `offsets[idx] = v` to a vector entry; the subscript is range-checked. -/
def store (offsets : OffsetList) (idx v : Nat) : Except Err OffsetList :=
  if idx < offsets.length then .ok (offsets.set idx (some v)) else .error .indexOutOfRange

/-- The loop `for (int i = 0; i < n; ++i) body`, threading the loop state. -/
def forLoop {σ : Type} (n : Nat) (body : Nat → σ → Except Err σ) (s : σ) : Except Err σ :=
  match n with
  | 0 => .ok s
  | k + 1 =>
    match forLoop k body s with
    | .ok s' => body k s'
    | .error e => .error e

/-- Wave coordinate along the M axis (`getWaveM`). -/
def getWaveM (wave : Nat) (wpt : Nat × Nat) (elemPerInstr M : Nat) : Except Err Nat := do
  let q ← cdiv M elemPerInstr
  let r ← urem wave wpt.1
  urem r q

/-- Wave coordinate along the N axis (`getWaveN`). -/
def getWaveN (wave : Nat) (wpt : Nat × Nat) (elemPerInstr N : Nat) : Except Err Nat := do
  let waveMN ← udiv wave wpt.1
  let q ← cdiv N elemPerInstr
  let r ← urem waveMN wpt.2
  urem r q

/-- Conversion of an integer to `int`: the 32-bit two's complement value. -/
def toInt (x : Int) : Int := (x + 2 ^ 31) % 2 ^ 32 - 2 ^ 31

/-- Reduction of an integer to `int64_t`: the 64-bit two's complement value. -/
def toInt64 (x : Int) : Int := (x + 2 ^ 63) % 2 ^ 64 - 2 ^ 63

/-- The constant `i32_val(x)`: the 32-bit pattern of `x`, read as an unsigned number. -/
def i32_val (x : Int) : Nat := (x % 2 ^ 32).toNat

/-- The instruction `mul` on `i32` values. -/
def mul (a b : Nat) : Nat := (a * b) % 2 ^ 32

/-- The instruction `add` on `i32` values. -/
def add (a b : Nat) : Nat := (a + b) % 2 ^ 32

/-- The value `offset` that `computeOffsetsTy1` emits in iteration `(block, tile, elem)` of its
loops: the statements of lines 55-73 of the source, with `lineSize` and `blockSize` of type
`int`. The value `waveHalf` of the source is never used and is left out. -/
def offsetTy1 (elemsPerInstr : Nat × Nat) (waveId laneId warpsPerGroup numOfElems : Nat)
    (reps : Nat × Nat) (block tile elem : Nat) : Nat :=
  let numK := reps.2
  let lineSize : Int := toInt (toInt64 (elemsPerInstr.2 * numK))
  let blockSize : Int := toInt (toInt64 (toInt64 (elemsPerInstr.1 * warpsPerGroup) * lineSize))
  let waveOffset := mul waveId (i32_val (toInt64 (elemsPerInstr.1 * lineSize)))
  let colOffset := if laneId ≥ 32 then i32_val numOfElems else 0
  let blockOffset := i32_val (toInt (block * blockSize))
  let tileOffset := i32_val (toInt64 (tile * elemsPerInstr.2))
  let rowOffset := add (mul (laneId % 32) (i32_val lineSize)) (i32_val elem)
  let elemOffset := add rowOffset colOffset
  add (add (add waveOffset blockOffset) tileOffset) elemOffset

/-- The value `offset` that `computeOffsetsTy2` emits in iteration `(block, tile, elem)` of its
loops: the statements of lines 100-116 of the source, with `lineSize` of type `int`. -/
def offsetTy2 (elemsPerInstr : Nat × Nat) (waveId laneId warpsPerGroup numOfElems : Nat)
    (reps : Nat × Nat) (block tile elem : Nat) : Nat :=
  let numN := reps.2
  let lineSize : Int := toInt (toInt64 (toInt64 (warpsPerGroup * elemsPerInstr.2) * numN))
  let waveOffset := mul waveId (i32_val elemsPerInstr.2)
  let colOffset := laneId % 32
  let blockOffset := i32_val (toInt64 (toInt64 (block * elemsPerInstr.2) * warpsPerGroup))
  let tileOffset := i32_val (toInt64 (toInt64 (tile * elemsPerInstr.1) * lineSize))
  let halfOffset := if laneId ≥ 32 then i32_val (toInt (numOfElems * lineSize)) else 0
  let rowOffset := add (i32_val (toInt (elem * lineSize))) halfOffset
  let elemOffset := add rowOffset colOffset
  add (add (add waveOffset blockOffset) tileOffset) elemOffset

/-- Offsets for operand A or transposed operand B (`computeOffsetsTy1`): the vector and the
triple loop that assigns entry `numK * numOfElems * block + numOfElems * tile + elem` the
offset of iteration `(block, tile, elem)`; `cSwizzleOffset` is received and not used, as in
the source. -/
def computeOffsetsTy1 (elemsPerInstr : Nat × Nat) (waveId laneId warpsPerGroup numOfElems : Nat)
    (reps : Nat × Nat) (cSwizzleOffset : Nat) : Except Err OffsetList :=
  let numM := reps.1
  let numK := reps.2
  let offsets : OffsetList := List.replicate (numM * numK * numOfElems) none
  forLoop numM (fun block offsets =>
    forLoop numK (fun tile offsets =>
      forLoop numOfElems (fun elem offsets =>
        store offsets (numK * numOfElems * block + numOfElems * tile + elem)
          (offsetTy1 elemsPerInstr waveId laneId warpsPerGroup numOfElems reps block tile elem))
        offsets)
      offsets)
    offsets

/-- Offsets for operand B or transposed operand A (`computeOffsetsTy2`): the vector and the
triple loop that assigns entry `numK * numOfElems * block + numOfElems * tile + elem` the
offset of iteration `(block, tile, elem)`; `cSwizzleOffset` is received and not used, as in
the source. -/
def computeOffsetsTy2 (elemsPerInstr : Nat × Nat) (waveId laneId warpsPerGroup numOfElems : Nat)
    (reps : Nat × Nat) (cSwizzleOffset : Nat) : Except Err OffsetList :=
  let numK := reps.1
  let numN := reps.2
  let offsets : OffsetList := List.replicate (numK * numN * numOfElems) none
  forLoop numN (fun block offsets =>
    forLoop numK (fun tile offsets =>
      forLoop numOfElems (fun elem offsets =>
        store offsets (numK * numOfElems * block + numOfElems * tile + elem)
          (offsetTy2 elemsPerInstr waveId laneId warpsPerGroup numOfElems reps block tile elem))
        offsets)
      offsets)
    offsets

/-- Storage-order test (`isTransposed`); the entries of `order` are `unsigned` (32 bits),
the mask `~1ul` is 64 bits wide, and the sum `order[0] + order[1]` wraps at `2 ^ 32`. -/
def isTransposed (order : List Nat) : Except Err Bool :=
  match order with
  | [o0, o1] =>
    if o0 &&& (2 ^ 64 - 2) = 0 ∧ (o0 + o1) % 2 ^ 32 = 1 then .ok (o0 == 0)
    else .error .malformedOrder
  | _ => .error .malformedOrder

/-- Subscript `order[i]` of an `ArrayRef<unsigned>`; the subscript is range-checked. -/
def orderAt (order : List Nat) (i : Nat) : Except Err Nat :=
  match order[i]? with
  | some v => .ok v
  | none => .error .indexOutOfRange

/-- What a loader reads from its collaborators: the thread id, the warp grid of the MFMA
layout, the tensor shape and storage order, the instruction extents
(`getMFMAElemsPerThread`), the repetition counts (`getMFMARep`), the wave size
(`getWarpSize`) and the swizzle offset service of the shared memory object. -/
structure LoaderInput where
  thread : Nat
  warpsPerCTA : Nat × Nat
  shape : Nat × Nat
  order : List Nat
  elemsPerInstr : Nat × Nat
  numReps : Nat × Nat
  iWaveSize : Nat
  getCSwizzleOffset : Nat → Nat

/-- The offset list of `loadA`: the statements of `loadA` up to the choice of the engine. -/
def loadAOffsets (inp : LoaderInput) : Except Err OffsetList := do
  let mfmaInstrM := inp.elemsPerInstr.1
  let mfmaInstrK := inp.elemsPerInstr.2
  let wave ← udiv inp.thread inp.iWaveSize
  let lane ← urem inp.thread inp.iWaveSize
  let waveM ← getWaveM wave inp.warpsPerCTA mfmaInstrM inp.shape.1
  let numOfElems := max ((← cdiv (mfmaInstrM * mfmaInstrK) inp.iWaveSize)) 1
  let cSwizzleOffset := inp.getCSwizzleOffset (← orderAt inp.order 0)
  let maxNumWarps ← cdiv inp.shape.1 mfmaInstrM
  let warpsPerGroupM := min inp.warpsPerCTA.1 maxNumWarps
  if ← isTransposed inp.order then
    computeOffsetsTy2 (mfmaInstrK, mfmaInstrM) waveM lane warpsPerGroupM numOfElems
      (inp.numReps.2, inp.numReps.1) cSwizzleOffset
  else
    computeOffsetsTy1 inp.elemsPerInstr waveM lane warpsPerGroupM numOfElems
      inp.numReps cSwizzleOffset

/-- The offset list of `loadB`: the statements of `loadB` up to the choice of the engine;
`_wpt` is the `wpt` of the source, computed and not used. -/
def loadBOffsets (inp : LoaderInput) : Except Err OffsetList := do
  let mfmaInstrK := inp.elemsPerInstr.1
  let mfmaInstrN := inp.elemsPerInstr.2
  let wave ← udiv inp.thread inp.iWaveSize
  let lane ← urem inp.thread inp.iWaveSize
  let waveN ← getWaveN wave inp.warpsPerCTA mfmaInstrN inp.shape.2
  let numOfElems := max ((← cdiv (mfmaInstrK * mfmaInstrN) inp.iWaveSize)) 1
  let cSwizzleOffset := inp.getCSwizzleOffset (← orderAt inp.order 0)
  let macroTileM := max (← cdiv inp.shape.1 (inp.warpsPerCTA.1 * 32)) 1
  let wptM := min inp.warpsPerCTA.1 macroTileM
  let macroTileN := max (← cdiv inp.shape.2 (inp.warpsPerCTA.2 * 32)) 1
  let wptN := min inp.warpsPerCTA.2 macroTileN
  let _wpt := max wptM wptN
  let maxNumWarps ← cdiv inp.shape.2 mfmaInstrN
  let warpsPerGroupN := min inp.warpsPerCTA.2 maxNumWarps
  if ← isTransposed inp.order then
    computeOffsetsTy1 (mfmaInstrN, mfmaInstrK) waveN lane warpsPerGroupN numOfElems
      (inp.numReps.2, inp.numReps.1) cSwizzleOffset
  else
    computeOffsetsTy2 inp.elemsPerInstr waveN lane warpsPerGroupN numOfElems
      inp.numReps cSwizzleOffset

/-- Modelled from the spec: the element type tag of a tile (the `Type` of the surrounding
compiler is not part of this unit). The signless integer types `iN`, the floating point types
of a given width (8-bit ones included), and `bf16`, which the source tells apart. -/
inductive ElemTy where
  | int (width : Nat)
  | float (width : Nat)
  | bf16
  deriving DecidableEq, Repr

/-- Width in bits of an element type. -/
def ElemTy.width : ElemTy → Nat
  | .int w => w
  | .float w => w
  | .bf16 => 16

/-- The type `i8_ty`. -/
def i8_ty : ElemTy := .int 8

/-- The type `i32_ty`. -/
def i32_ty : ElemTy := .int 32

/-- Pointee type of the shared memory pointer (`getShemPtrTy`): `i16` for `bf16`, the element
type itself otherwise. -/
def getShemPtrTy (elemTy : ElemTy) : ElemTy :=
  if elemTy = .bf16 then .int 16 else elemTy

/-- An emitted value of a loader: a loaded scalar, a vector whose lanes are loaded scalars
(`none` is a lane still `undef`), or a `bitcast` of such a value to a scalar type. -/
inductive LLVal where
  | scalar (ty : ElemTy) (v : Nat)
  | vec (ty : ElemTy) (lanes : List (Option Nat))
  | bitcast (val : LLVal) (dst : ElemTy)
  deriving DecidableEq, Repr

/-- The instruction `insert_element(vecTy, vec, elem, idx)`. -/
def insertElement (vec elem : LLVal) (idx : Nat) : Except Err LLVal :=
  match vec, elem with
  | .vec ty lanes, .scalar _ v =>
    if idx < lanes.length then .ok (.vec ty (lanes.set idx (some v)))
    else .error .indexOutOfRange
  | _, _ => .error .indexOutOfRange

/-- Read `offsets[idx]` of an assigned vector entry; the subscript is range-checked. -/
def fetch (offsets : OffsetList) (idx : Nat) : Except Err Nat :=
  match offsets[idx]? with
  | some (some v) => .ok v
  | _ => .error .indexOutOfRange

/-- What a loader reads beyond `LoaderInput`: the element type of the tensor, the base pointer
service of the shared memory object (`getBaseBeforeSwizzle`) and the contents of shared memory,
addressed in elements. -/
structure OperandInput extends LoaderInput where
  elemTy : ElemTy
  getBaseBeforeSwizzle : Nat → Nat
  smem : Nat → Nat

/-- Operand A loader (`loadA`): the offset list, then the gather and pack loops. The result of
`packLLElements` is the list `ha` of packed values; `ha[0]` is read to build the struct type.
`numOfElems` is the value `loadAOffsets` passes to the engine. -/
def loadA (inp : OperandInput) : Except Err (List LLVal) := do
  let numRepM := inp.numReps.1
  let numRepK := inp.numReps.2
  let numOfElems := max (inp.elemsPerInstr.1 * inp.elemsPerInstr.2 / inp.iWaveSize) 1
  let offsets ← loadAOffsets inp.toLoaderInput
  let smemBase := inp.getBaseBeforeSwizzle (← orderAt inp.order 0)
  let smemPtrTy := getShemPtrTy inp.elemTy
  let ha ← forLoop numRepM (fun m ha =>
    forLoop numRepK (fun k ha => do
      let valVec ← forLoop numOfElems (fun elem valVec => do
        let elemOffset ← fetch offsets (m * numOfElems * numRepK + k * numOfElems + elem)
        let elemValue := LLVal.scalar smemPtrTy (inp.smem (smemBase + elemOffset))
        if numOfElems > 1 then insertElement valVec elemValue elem
        else pure elemValue)
        (LLVal.vec inp.elemTy (List.replicate numOfElems none))
      let valVec := if inp.elemTy = i8_ty then LLVal.bitcast valVec i32_ty else valVec
      pure (ha ++ [valVec])) ha) []
  match ha with
  | [] => .error .indexOutOfRange
  | _ :: _ => pure ha

/-- Operand B loader (`loadB`): the offset list, then the gather and pack loops. The result of
`packLLElements` is the list `hb` of packed values; `hb[0]` is read to build the struct type.
`numOfElems` is the value `loadBOffsets` passes to the engine. -/
def loadB (inp : OperandInput) : Except Err (List LLVal) := do
  let numRepK := inp.numReps.1
  let numRepN := inp.numReps.2
  let numOfElems := max (inp.elemsPerInstr.1 * inp.elemsPerInstr.2 / inp.iWaveSize) 1
  let offsets ← loadBOffsets inp.toLoaderInput
  let smemBase := inp.getBaseBeforeSwizzle (← orderAt inp.order 0)
  let smemPtrTy := getShemPtrTy inp.elemTy
  let hb ← forLoop numRepN (fun n hb =>
    forLoop numRepK (fun k hb => do
      let valVec ← forLoop numOfElems (fun elem valVec => do
        let elemOffset ← fetch offsets (n * numOfElems * numRepK + k * numOfElems + elem)
        let elemValue := LLVal.scalar smemPtrTy (inp.smem (smemBase + elemOffset))
        if numOfElems > 1 then insertElement valVec elemValue elem
        else pure elemValue)
        (LLVal.vec inp.elemTy (List.replicate numOfElems none))
      let valVec := if inp.elemTy = i8_ty then LLVal.bitcast valVec i32_ty else valVec
      pure (hb ++ [valVec])) hb) []
  match hb with
  | [] => .error .indexOutOfRange
  | _ :: _ => pure hb

/-- Dispatch entry point (`convertLayout`); the `default` case is the failed
`assert(false && "unexpected operand idx")`. -/
def convertLayout (opIdx : Int) (inp : OperandInput) : Except Err (List LLVal) :=
  match opIdx with
  | 0 => loadA inp
  | 1 => loadB inp
  | _ => .error .unexpectedOperandIdx

/-- Entry `j` of the list an engine returned, when the engine succeeded and assigned it. -/
def entryAt (r : Except Err OffsetList) (j : Nat) : Option Nat :=
  match r with
  | .ok offs => (offs[j]?).join
  | .error _ => none

/-- The value of `lane` in a loader. -/
def LoaderInput.lane (inp : LoaderInput) : Nat := inp.thread % inp.iWaveSize

/-- The value of `numOfElems` in a loader. -/
def LoaderInput.numOfElems (inp : LoaderInput) : Nat :=
  max (inp.elemsPerInstr.1 * inp.elemsPerInstr.2 / inp.iWaveSize) 1

/-- The value of `waveM` in `loadA`. -/
def LoaderInput.waveM (inp : LoaderInput) : Nat :=
  inp.thread / inp.iWaveSize % inp.warpsPerCTA.1 % (inp.shape.1 / inp.elemsPerInstr.1)

/-- The value of `warpsPerGroupM` in `loadA`. -/
def LoaderInput.warpsPerGroupM (inp : LoaderInput) : Nat :=
  min inp.warpsPerCTA.1 (inp.shape.1 / inp.elemsPerInstr.1)

/-- The value of `waveN` in `loadB`. -/
def LoaderInput.waveN (inp : LoaderInput) : Nat :=
  inp.thread / inp.iWaveSize / inp.warpsPerCTA.1 % inp.warpsPerCTA.2
    % (inp.shape.2 / inp.elemsPerInstr.2)

/-- The value of `warpsPerGroupN` in `loadB`. -/
def LoaderInput.warpsPerGroupN (inp : LoaderInput) : Nat :=
  min inp.warpsPerCTA.2 (inp.shape.2 / inp.elemsPerInstr.2)

/-- The map `off` from (wave coordinate below `g`, lane below 64, outer repetition below `nO`,
inner repetition below `nI`, element below `n`) to offsets is a bijection onto `[0, total)`:
every offset is defined and below `total`, no two tuples share an offset, and every value
below `total` is the offset of some tuple. -/
def ExactCoverage (off : Nat → Nat → Nat → Nat → Nat → Option Nat)
    (g nO nI n total : Nat) : Prop :=
  (∀ w l o i k, w < g → l < 64 → o < nO → i < nI → k < n →
    ∃ v, off w l o i k = some v ∧ v < total) ∧
  (∀ w l o i k w' l' o' i' k', w < g → l < 64 → o < nO → i < nI → k < n →
    w' < g → l' < 64 → o' < nO → i' < nI → k' < n →
    off w l o i k = off w' l' o' i' k' → w = w' ∧ l = l' ∧ o = o' ∧ i = i' ∧ k = k') ∧
  (∀ v, v < total → ∃ w l o i k, w < g ∧ l < 64 ∧ o < nO ∧ i < nI ∧ k < n ∧
    off w l o i k = some v)

/-- The map `f` assigns the entries `lo ≤ j < lo + w` of a vector the values `V j`, keeps the
length and leaves every other entry as it was. -/
def Fills (f : OffsetList → Except Err OffsetList) (lo w : Nat) (V : Nat → Nat) : Prop :=
  ∀ s : OffsetList, lo + w ≤ s.length →
    ∃ s', f s = .ok s' ∧ s'.length = s.length ∧
      (∀ j, lo ≤ j → j < lo + w → s'[j]? = some (some (V j))) ∧
      (∀ j, j < lo ∨ lo + w ≤ j → s'[j]? = s[j]?)

/-- The index map `(b, t, e) ↦ nT * nE * b + nE * t + e` of a triple loop with trip counts
`nB`, `nT`, `nE` is a bijection from the iteration triples onto `[0, len)`: every index is
in range, no two iterations share an index, and every index below `len` is hit. -/
def IndexBijection (nB nT nE len : Nat) : Prop :=
  (∀ b t e, b < nB → t < nT → e < nE → nT * nE * b + nE * t + e < len) ∧
  (∀ b t e b' t' e', b < nB → t < nT → e < nE → b' < nB → t' < nT → e' < nE →
    nT * nE * b + nE * t + e = nT * nE * b' + nE * t' + e' → b = b' ∧ t = t' ∧ e = e') ∧
  (∀ j, j < len → ∃ b t e, b < nB ∧ t < nT ∧ e < nE ∧ nT * nE * b + nE * t + e = j)

/-! ## Loops that fill a vector -/

theorem store_fills (V : Nat → Nat) (j v : Nat) (hv : V j = v) :
    Fills (fun s => store s j v) j 1 V := by
  intro s hs
  refine ⟨s.set j (some v), ?_, ?_, ?_, ?_⟩
  · have : j < s.length := by omega
    simp [store, this]
  · simp
  · intro j' h1 h2
    have hj : j' = j := by omega
    subst hj
    have : j' < s.length := by omega
    simp [List.getElem?_set, this, hv]
  · intro j' h
    have hj : j ≠ j' := by omega
    simp [List.getElem?_set, hj]

theorem forLoop_fills (V : Nat → Nat) (body : Nat → OffsetList → Except Err OffsetList)
    (base w : Nat) (n : Nat)
    (hbody : ∀ i, i < n → Fills (body i) (base + w * i) w V) :
    Fills (forLoop n body) base (w * n) V := by
  induction n with
  | zero =>
    intro s _
    exact ⟨s, rfl, rfl, fun j h1 h2 => by omega, fun _ _ => rfl⟩
  | succ k ih =>
    intro s hs
    have hk : w * (k + 1) = w * k + w := Nat.mul_succ w k
    obtain ⟨s1, e1, l1, f1, r1⟩ :=
      ih (fun i hi => hbody i (by omega)) s (by omega)
    obtain ⟨s2, e2, l2, f2, r2⟩ := hbody k (by omega) s1 (by omega)
    refine ⟨s2, ?_, by omega, ?_, ?_⟩
    · simp only [forLoop, e1, e2]
    · intro j h1 h2
      by_cases hj : j < base + w * k
      · rw [r2 j (Or.inl hj)]
        exact f1 j h1 hj
      · exact f2 j (by omega) (by omega)
    · intro j hj
      rw [r2 j (by omega)]
      exact r1 j (by omega)

theorem Fills.cast {f : OffsetList → Except Err OffsetList} {lo w lo' w' : Nat}
    {V : Nat → Nat} (h : Fills f lo w V) (hlo : lo = lo') (hw : w = w') :
    Fills f lo' w' V := by
  subst hlo; subst hw; exact h

/-- Decoding the linear index of the triple loop. -/
theorem index_decode (nT nE b t e : Nat) (ht : t < nT) (he : e < nE) :
    (nT * nE * b + nE * t + e) / (nT * nE) = b ∧
    (nT * nE * b + nE * t + e) / nE % nT = t ∧
    (nT * nE * b + nE * t + e) % nE = e := by
  have hE : 0 < nE := by omega
  have hT : 0 < nT := by omega
  have h1 : nT * nE * b + nE * t + e = e + nE * (t + nT * b) := by ring
  have hdiv : (nT * nE * b + nE * t + e) / nE = t + nT * b := by
    rw [h1, Nat.add_mul_div_left _ _ hE, Nat.div_eq_of_lt he, Nat.zero_add]
  refine ⟨?_, ?_, ?_⟩
  · rw [Nat.mul_comm nT nE, ← Nat.div_div_eq_div_mul, Nat.mul_comm nE nT, hdiv,
      Nat.add_mul_div_left _ _ hT, Nat.div_eq_of_lt ht, Nat.zero_add]
  · rw [hdiv, Nat.add_mul_mod_self_left, Nat.mod_eq_of_lt ht]
  · rw [h1, Nat.add_mul_mod_self_left, Nat.mod_eq_of_lt he]

/-- The triple loop shared by the two engines assigns every entry of the vector, entry
`nT * nE * b + nE * t + e` receiving the value computed in iteration `(b, t, e)`. -/
theorem tripleLoop_fills (nB nT nE : Nat) (val : Nat → Nat → Nat → Nat) :
    Fills
      (forLoop nB (fun b o => forLoop nT (fun t o => forLoop nE (fun e o =>
        store o (nT * nE * b + nE * t + e) (val b t e)) o) o))
      0 (nT * nE * nB) (fun j => val (j / (nT * nE)) (j / nE % nT) (j % nE)) := by
  apply forLoop_fills
  intro b _
  refine (forLoop_fills _ _ (0 + nT * nE * b) nE nT ?_).cast rfl (Nat.mul_comm nE nT)
  intro t ht
  refine (forLoop_fills _ _ (0 + nT * nE * b + nE * t) 1 nE ?_).cast rfl (Nat.one_mul nE)
  intro e he
  refine (store_fills _ (nT * nE * b + nE * t + e) (val b t e) ?_).cast (by omega) rfl
  obtain ⟨h1, h2, h3⟩ := index_decode nT nE b t e ht he
  simp only [h1, h2, h3]

theorem tripleLoop_spec (nB nT nE len : Nat) (val : Nat → Nat → Nat → Nat)
    (hlen : len = nB * nT * nE) :
    ∃ offs, forLoop nB (fun b o => forLoop nT (fun t o => forLoop nE (fun e o =>
        store o (nT * nE * b + nE * t + e) (val b t e)) o) o)
        (List.replicate len none) = .ok offs ∧
      offs.length = len ∧
      (∀ j, j < len → ∃ v, offs[j]? = some (some v)) ∧
      ∀ b t e, b < nB → t < nT → e < nE →
        offs[nT * nE * b + nE * t + e]? = some (some (val b t e)) := by
  have hlen' : nT * nE * nB = len := by rw [hlen]; ring
  obtain ⟨offs, h1, h2, h3, _⟩ :=
    tripleLoop_fills nB nT nE val (List.replicate len none) (by simp [hlen'])
  refine ⟨offs, h1, by simpa using h2, ?_, ?_⟩
  · intro j hj
    exact ⟨_, h3 j (Nat.zero_le _) (by omega)⟩
  · intro b t e hb ht he
    obtain ⟨d1, d2, d3⟩ := index_decode nT nE b t e ht he
    have hlt : nT * nE * b + nE * t + e < 0 + nT * nE * nB := by
      have : nT * nE * (b + 1) ≤ nT * nE * nB := Nat.mul_le_mul_left _ hb
      have : nE * (t + 1) ≤ nE * nT := Nat.mul_le_mul_left _ ht
      have e1 : nT * nE * (b + 1) = nT * nE * b + nE * nT := by ring
      have e2 : nE * (t + 1) = nE * t + nE := by ring
      omega
    have := h3 _ (Nat.zero_le _) hlt
    simpa only [d1, d2, d3] using this

/-! ## Wrap-around arithmetic -/

theorem toInt_modEq (x : Int) : Int.ModEq (2 ^ 32) (toInt x) x := by
  unfold toInt Int.ModEq
  omega

theorem toInt64_modEq (x : Int) : Int.ModEq (2 ^ 32) (toInt64 x) x := by
  unfold toInt64 Int.ModEq
  omega

theorem i32_val_modEq (x : Int) (y : Nat) (h : Int.ModEq (2 ^ 32) x y) :
    Nat.ModEq (2 ^ 32) (i32_val x) y := by
  unfold Nat.ModEq i32_val
  unfold Int.ModEq at h
  omega

theorem mul_modEq {a b a' b' : Nat} (ha : Nat.ModEq (2 ^ 32) a a')
    (hb : Nat.ModEq (2 ^ 32) b b') : Nat.ModEq (2 ^ 32) (mul a b) (a' * b') :=
  (Nat.mod_modEq _ _).trans (ha.mul hb)

theorem add_modEq {a b a' b' : Nat} (ha : Nat.ModEq (2 ^ 32) a a')
    (hb : Nat.ModEq (2 ^ 32) b b') : Nat.ModEq (2 ^ 32) (add a b) (a' + b') :=
  (Nat.mod_modEq _ _).trans (ha.add hb)

/-- The offset of a layout-1 iteration is the sum of the source's products, reduced modulo
`2 ^ 32`. -/
theorem offsetTy1_eq (e : Nat × Nat) (w l g n : Nat) (r : Nat × Nat) (b t k : Nat) :
    offsetTy1 e w l g n r b t k =
      (w * (e.1 * (e.2 * r.2)) + b * (e.1 * g * (e.2 * r.2)) + t * e.2 +
        (l % 32 * (e.2 * r.2) + k + if l ≥ 32 then n else 0)) % 2 ^ 32 := by
  have hL : Int.ModEq (2 ^ 32) (toInt (toInt64 ((e.2 : Int) * r.2)))
      ((e.2 * r.2 : Nat) : Int) := by
    refine ((toInt_modEq _).trans (toInt64_modEq _)).trans ?_
    push_cast
    exact Int.ModEq.refl _
  have hB : Int.ModEq (2 ^ 32)
      (toInt (toInt64 (toInt64 ((e.1 : Int) * g) * toInt (toInt64 ((e.2 : Int) * r.2)))))
      ((e.1 * g * (e.2 * r.2) : Nat) : Int) := by
    refine ((toInt_modEq _).trans (toInt64_modEq _)).trans ?_
    refine ((toInt64_modEq _).mul hL).trans ?_
    push_cast
    exact Int.ModEq.refl _
  have h1 : Nat.ModEq (2 ^ 32)
      (mul w (i32_val (toInt64 ((e.1 : Int) * toInt (toInt64 ((e.2 : Int) * r.2))))))
      (w * (e.1 * (e.2 * r.2))) := by
    apply mul_modEq (Nat.ModEq.refl _)
    apply i32_val_modEq
    refine (toInt64_modEq _).trans ?_
    refine ((Int.ModEq.refl _).mul hL).trans ?_
    push_cast
    exact Int.ModEq.refl _
  have h2 : Nat.ModEq (2 ^ 32)
      (i32_val (toInt ((b : Int) *
        toInt (toInt64 (toInt64 ((e.1 : Int) * g) * toInt (toInt64 ((e.2 : Int) * r.2)))))))
      (b * (e.1 * g * (e.2 * r.2))) := by
    apply i32_val_modEq
    refine (toInt_modEq _).trans ?_
    refine ((Int.ModEq.refl _).mul hB).trans ?_
    push_cast
    exact Int.ModEq.refl _
  have h3 : Nat.ModEq (2 ^ 32) (i32_val (toInt64 ((t : Int) * e.2))) (t * e.2) := by
    apply i32_val_modEq
    refine (toInt64_modEq _).trans ?_
    push_cast
    exact Int.ModEq.refl _
  have h4 : Nat.ModEq (2 ^ 32)
      (add (mul (l % 32) (i32_val (toInt (toInt64 ((e.2 : Int) * r.2))))) (i32_val (k : Int)))
      (l % 32 * (e.2 * r.2) + k) :=
    add_modEq (mul_modEq (Nat.ModEq.refl _) (i32_val_modEq _ _ hL))
      (i32_val_modEq _ _ (Int.ModEq.refl _))
  have h5 : Nat.ModEq (2 ^ 32) (if l ≥ 32 then i32_val (n : Int) else 0)
      (if l ≥ 32 then n else 0) := by
    split
    · exact i32_val_modEq _ _ (Int.ModEq.refl _)
    · exact Nat.ModEq.refl _
  exact (add_modEq (add_modEq h1 h2) h3).add (add_modEq h4 h5)

/-- The offset of a layout-2 iteration is the sum of the source's products, reduced modulo
`2 ^ 32`. -/
theorem offsetTy2_eq (e : Nat × Nat) (w l g n : Nat) (r : Nat × Nat) (b t k : Nat) :
    offsetTy2 e w l g n r b t k =
      (w * e.2 + b * e.2 * g + t * e.1 * (g * e.2 * r.2) +
        (k * (g * e.2 * r.2) + (if l ≥ 32 then n * (g * e.2 * r.2) else 0) + l % 32))
        % 2 ^ 32 := by
  have hL : Int.ModEq (2 ^ 32) (toInt (toInt64 (toInt64 ((g : Int) * e.2) * r.2)))
      ((g * e.2 * r.2 : Nat) : Int) := by
    refine ((toInt_modEq _).trans (toInt64_modEq _)).trans ?_
    refine ((toInt64_modEq _).mul (Int.ModEq.refl _)).trans ?_
    push_cast
    exact Int.ModEq.refl _
  have h1 : Nat.ModEq (2 ^ 32) (mul w (i32_val (e.2 : Int))) (w * e.2) :=
    mul_modEq (Nat.ModEq.refl _) (i32_val_modEq _ _ (Int.ModEq.refl _))
  have h2 : Nat.ModEq (2 ^ 32) (i32_val (toInt64 (toInt64 ((b : Int) * e.2) * g)))
      (b * e.2 * g) := by
    apply i32_val_modEq
    refine (toInt64_modEq _).trans ?_
    refine ((toInt64_modEq _).mul (Int.ModEq.refl _)).trans ?_
    push_cast
    exact Int.ModEq.refl _
  have h3 : Nat.ModEq (2 ^ 32)
      (i32_val (toInt64 (toInt64 ((t : Int) * e.1) *
        toInt (toInt64 (toInt64 ((g : Int) * e.2) * r.2)))))
      (t * e.1 * (g * e.2 * r.2)) := by
    apply i32_val_modEq
    refine (toInt64_modEq _).trans ?_
    refine ((toInt64_modEq _).mul hL).trans ?_
    push_cast
    exact Int.ModEq.refl _
  have h4 : Nat.ModEq (2 ^ 32)
      (i32_val (toInt ((k : Int) * toInt (toInt64 (toInt64 ((g : Int) * e.2) * r.2)))))
      (k * (g * e.2 * r.2)) := by
    apply i32_val_modEq
    refine (toInt_modEq _).trans ?_
    refine ((Int.ModEq.refl _).mul hL).trans ?_
    push_cast
    exact Int.ModEq.refl _
  have h5 : Nat.ModEq (2 ^ 32)
      (if l ≥ 32 then
        i32_val (toInt ((n : Int) * toInt (toInt64 (toInt64 ((g : Int) * e.2) * r.2))))
      else 0)
      (if l ≥ 32 then n * (g * e.2 * r.2) else 0) := by
    split
    · apply i32_val_modEq
      refine (toInt_modEq _).trans ?_
      refine ((Int.ModEq.refl _).mul hL).trans ?_
      push_cast
      exact Int.ModEq.refl _
    · exact Nat.ModEq.refl _
  exact (add_modEq (add_modEq h1 h2) h3).add
    (add_modEq (add_modEq h4 h5) (Nat.ModEq.refl _))

/-- The layout-1 engine returns a fully assigned list holding, at the index of each
iteration, the offset of that iteration. -/
theorem computeOffsetsTy1_iter (e : Nat × Nat) (w l g n : Nat) (r : Nat × Nat) (cs : Nat) :
    ∃ offs, computeOffsetsTy1 e w l g n r cs = .ok offs ∧
      offs.length = r.1 * r.2 * n ∧
      (∀ j, j < r.1 * r.2 * n → ∃ v, offs[j]? = some (some v)) ∧
      ∀ b t k, b < r.1 → t < r.2 → k < n →
        offs[r.2 * n * b + n * t + k]? = some (some (offsetTy1 e w l g n r b t k)) :=
  tripleLoop_spec r.1 r.2 n (r.1 * r.2 * n) (fun b t k => offsetTy1 e w l g n r b t k) rfl

/-- The layout-2 engine returns a fully assigned list holding, at the index of each
iteration, the offset of that iteration. -/
theorem computeOffsetsTy2_iter (e : Nat × Nat) (w l g n : Nat) (r : Nat × Nat) (cs : Nat) :
    ∃ offs, computeOffsetsTy2 e w l g n r cs = .ok offs ∧
      offs.length = r.1 * r.2 * n ∧
      (∀ j, j < r.1 * r.2 * n → ∃ v, offs[j]? = some (some v)) ∧
      ∀ b t k, b < r.2 → t < r.1 → k < n →
        offs[r.1 * n * b + n * t + k]? = some (some (offsetTy2 e w l g n r b t k)) :=
  tripleLoop_spec r.2 r.1 n (r.1 * r.2 * n) (fun b t k => offsetTy2 e w l g n r b t k)
    (by ring)

/-- Closed form of the layout-1 engine: its length and each of its entries. -/
theorem computeOffsetsTy1_spec (e : Nat × Nat) (w l g n : Nat) (r : Nat × Nat) (cs : Nat) :
    ∃ offs, computeOffsetsTy1 e w l g n r cs = .ok offs ∧
      offs.length = r.1 * r.2 * n ∧
      (∀ j, j < r.1 * r.2 * n → ∃ v, offs[j]? = some (some v)) ∧
      ∀ b t k, b < r.1 → t < r.2 → k < n →
        offs[r.2 * n * b + n * t + k]? =
          some (some ((w * (e.1 * (e.2 * r.2)) + b * (e.1 * g * (e.2 * r.2)) + t * e.2 +
            (l % 32 * (e.2 * r.2) + k + if l ≥ 32 then n else 0)) % 2 ^ 32)) := by
  obtain ⟨offs, h1, h2, h3, h4⟩ := computeOffsetsTy1_iter e w l g n r cs
  refine ⟨offs, h1, h2, h3, ?_⟩
  intro b t k hb ht hk
  rw [h4 b t k hb ht hk, offsetTy1_eq]

/-- Closed form of the layout-2 engine: its length and each of its entries. -/
theorem computeOffsetsTy2_spec (e : Nat × Nat) (w l g n : Nat) (r : Nat × Nat) (cs : Nat) :
    ∃ offs, computeOffsetsTy2 e w l g n r cs = .ok offs ∧
      offs.length = r.1 * r.2 * n ∧
      (∀ j, j < r.1 * r.2 * n → ∃ v, offs[j]? = some (some v)) ∧
      ∀ b t k, b < r.2 → t < r.1 → k < n →
        offs[r.1 * n * b + n * t + k]? =
          some (some ((w * e.2 + b * e.2 * g + t * e.1 * (g * e.2 * r.2) +
            (k * (g * e.2 * r.2) + (if l ≥ 32 then n * (g * e.2 * r.2) else 0) + l % 32))
            % 2 ^ 32)) := by
  obtain ⟨offs, h1, h2, h3, h4⟩ := computeOffsetsTy2_iter e w l g n r cs
  refine ⟨offs, h1, h2, h3, ?_⟩
  intro b t k hb ht hk
  rw [h4 b t k hb ht hk, offsetTy2_eq]

theorem indexBijection_tripleLoop (nB nT nE : Nat) :
    IndexBijection nB nT nE (nB * nT * nE) := by
  refine ⟨?_, ?_, ?_⟩
  · intro b t e hb ht he
    have : nT * nE * (b + 1) ≤ nT * nE * nB := Nat.mul_le_mul_left _ hb
    have : nE * (t + 1) ≤ nE * nT := Nat.mul_le_mul_left _ ht
    have e1 : nT * nE * (b + 1) = nT * nE * b + nE * nT := by ring
    have e2 : nE * (t + 1) = nE * t + nE := by ring
    have e3 : nB * nT * nE = nT * nE * nB := by ring
    omega
  · intro b t e b' t' e' _ ht he _ ht' he' h
    obtain ⟨d1, d2, d3⟩ := index_decode nT nE b t e ht he
    obtain ⟨d1', d2', d3'⟩ := index_decode nT nE b' t' e' ht' he'
    rw [h] at d1 d2 d3
    exact ⟨d1.symm.trans d1', d2.symm.trans d2', d3.symm.trans d3'⟩
  · intro j hj
    have hE : 0 < nE := by
      rcases Nat.eq_zero_or_pos nE with h | h
      · subst h; simp at hj
      · exact h
    have hT : 0 < nT := by
      rcases Nat.eq_zero_or_pos nT with h | h
      · subst h; simp at hj
      · exact h
    refine ⟨j / (nT * nE), j / nE % nT, j % nE, ?_, Nat.mod_lt _ hT, Nat.mod_lt _ hE, ?_⟩
    · rw [Nat.div_lt_iff_lt_mul (Nat.mul_pos hT hE)]
      calc j < nB * nT * nE := hj
        _ = nB * (nT * nE) := by ring
    · have h1 : nE * (j / nE) + j % nE = j := Nat.div_add_mod j nE
      have h2 : nT * (j / nE / nT) + j / nE % nT = j / nE := Nat.div_add_mod (j / nE) nT
      have h3 : j / (nT * nE) = j / nE / nT := by
        rw [Nat.mul_comm nT nE, Nat.div_div_eq_div_mul]
      rw [h3]
      calc nT * nE * (j / nE / nT) + nE * (j / nE % nT) + j % nE
          = nE * (nT * (j / nE / nT) + j / nE % nT) + j % nE := by ring
        _ = j := by rw [h2, h1]

/-- Every entry of the layout-1 list is the value of some iteration of the triple loop. -/
theorem computeOffsetsTy1_allEntries (e : Nat × Nat) (w l g n : Nat) (r : Nat × Nat) (cs : Nat) :
    ∃ offs, computeOffsetsTy1 e w l g n r cs = .ok offs ∧
      offs.length = r.1 * r.2 * n ∧
      ∀ j, j < r.1 * r.2 * n → ∃ b t k, b < r.1 ∧ t < r.2 ∧ k < n ∧
        offs[j]? =
          some (some ((w * (e.1 * (e.2 * r.2)) + b * (e.1 * g * (e.2 * r.2)) + t * e.2 +
            (l % 32 * (e.2 * r.2) + k + if l ≥ 32 then n else 0)) % 2 ^ 32)) := by
  obtain ⟨offs, h1, h2, _, h4⟩ := computeOffsetsTy1_spec e w l g n r cs
  refine ⟨offs, h1, h2, ?_⟩
  intro j hj
  obtain ⟨b, t, k, hb, ht, hk, hidx⟩ := (indexBijection_tripleLoop r.1 r.2 n).2.2 j hj
  exact ⟨b, t, k, hb, ht, hk, hidx ▸ h4 b t k hb ht hk⟩

/-- Every entry of the layout-2 list is the value of some iteration of the triple loop. -/
theorem computeOffsetsTy2_allEntries (e : Nat × Nat) (w l g n : Nat) (r : Nat × Nat) (cs : Nat) :
    ∃ offs, computeOffsetsTy2 e w l g n r cs = .ok offs ∧
      offs.length = r.1 * r.2 * n ∧
      ∀ j, j < r.1 * r.2 * n → ∃ b t k, b < r.2 ∧ t < r.1 ∧ k < n ∧
        offs[j]? =
          some (some ((w * e.2 + b * e.2 * g + t * e.1 * (g * e.2 * r.2) +
            (k * (g * e.2 * r.2) + (if l ≥ 32 then n * (g * e.2 * r.2) else 0) + l % 32))
            % 2 ^ 32)) := by
  obtain ⟨offs, h1, h2, _, h4⟩ := computeOffsetsTy2_spec e w l g n r cs
  refine ⟨offs, h1, h2, ?_⟩
  intro j hj
  have hj' : j < r.2 * r.1 * n := by
    have : r.2 * r.1 * n = r.1 * r.2 * n := by ring
    omega
  obtain ⟨b, t, k, hb, ht, hk, hidx⟩ := (indexBijection_tripleLoop r.2 r.1 n).2.2 j hj'
  exact ⟨b, t, k, hb, ht, hk, hidx ▸ h4 b t k hb ht hk⟩

/-! ## Arithmetic of row-major linearisation -/

theorem lin_bound (row col rows L : Nat) (hr : row < rows) (hc : col < L) :
    row * L + col < rows * L :=
  calc row * L + col < row * L + L := by omega
    _ = (row + 1) * L := by ring
    _ ≤ rows * L := Nat.mul_le_mul_right _ hr

theorem lin_unique (a1 a2 c1 c2 L : Nat) (h1 : c1 < L) (h2 : c2 < L)
    (h : a1 * L + c1 = a2 * L + c2) : a1 = a2 ∧ c1 = c2 := by
  have hL : 0 < L := by omega
  have e1 : a1 * L + c1 = c1 + L * a1 := by ring
  have e2 : a2 * L + c2 = c2 + L * a2 := by ring
  rw [e1, e2] at h
  have hd := congrArg (fun x => x / L) h
  have hm := congrArg (fun x => x % L) h
  simp only [Nat.add_mul_div_left _ _ hL, Nat.div_eq_of_lt h1, Nat.div_eq_of_lt h2,
    Nat.zero_add] at hd
  simp only [Nat.add_mul_mod_self_left, Nat.mod_eq_of_lt h1, Nat.mod_eq_of_lt h2] at hm
  exact ⟨hd, hm⟩

/-- A wave coordinate below `g`, a repetition below `r` and a position below `e` give a
coordinate below `e * g * r`. -/
theorem coord_bound (w b g r e x : Nat) (hw : w < g) (hb : b < r) (hx : x < e) :
    (w + b * g) * e + x < e * g * r := by
  have h1 : b * g + w < r * g := lin_bound b w r g hb hw
  have h2 : w + b * g < r * g := by omega
  have h3 := lin_bound (w + b * g) x (r * g) e h2 hx
  have h4 : r * g * e = e * g * r := by ring
  omega

/-! ## The two address computation engines -/

/-- C1, as stated, fails. The offsets are 32-bit values: with instruction tile
`(65536, 65536)`, repetitions `(1, 1)`, one cooperating warp, one element per lane, wave
coordinate `1` and lane `0`, the constant `i32_val(e0 * lineSize)` is `2 ^ 32` reduced to `0`
and the entry at index `0` is `0`, while the claimed sum is `1 * 65536 * 65536 = 2 ^ 32`. -/
theorem computeOffsetsTy1_entry_wrap_counterexample :
    computeOffsetsTy1 (65536, 65536) 1 0 1 1 (1, 1) 0 = .ok [some 0] ∧
    ¬ ∃ offs, computeOffsetsTy1 (65536, 65536) 1 0 1 1 (1, 1) 0 = .ok offs ∧
      offs[0 * 1 * 1 + 0 * 1 + 0]? =
        some (some (1 * 65536 * (65536 * 1) + 0 * (65536 * 1 * (65536 * 1)) + 0 * 65536
          + (0 % 32) * (65536 * 1) + 0 + (if 0 / 32 = 1 then 1 else 0))) := by
  have h : computeOffsetsTy1 (65536, 65536) 1 0 1 1 (1, 1) 0 = .ok [some 0] := by decide
  refine ⟨h, ?_⟩
  rintro ⟨offs, h1, h2⟩
  rw [h] at h1
  cases h1
  revert h2
  decide

/-- C1, amended. Layout-1 engine: for a lane in `[0, 64)` and every iteration `(o, i, k)`
within the repetition counts, `computeOffsetsTy1` returns a list whose entry at index
`o * numInner * elemsPerLane + i * elemsPerLane + k` is the 32-bit value of
`w * e0 * L + o * (e0 * warpsCooperating * L) + i * e1 + (lane % 32) * L + k`, plus
`elemsPerLane` when `lane / 32 = 1`, where `L = e1 * numInner`: the sum reduced modulo
`2 ^ 32`, hence the sum itself whenever it is below `2 ^ 32`. -/
theorem computeOffsetsTy1_entry (e0 e1 numOuter numInner warpsCooperating elemsPerLane : Nat)
    (w lane cs o i k : Nat) (hlane : lane < 64)
    (ho : o < numOuter) (hi : i < numInner) (hk : k < elemsPerLane) :
    ∃ offs, computeOffsetsTy1 (e0, e1) w lane warpsCooperating elemsPerLane
        (numOuter, numInner) cs = .ok offs ∧
      offs[o * numInner * elemsPerLane + i * elemsPerLane + k]? =
        some (some ((w * e0 * (e1 * numInner) + o * (e0 * warpsCooperating * (e1 * numInner))
          + i * e1 + (lane % 32) * (e1 * numInner) + k
          + (if lane / 32 = 1 then elemsPerLane else 0)) % 2 ^ 32)) ∧
      (w * e0 * (e1 * numInner) + o * (e0 * warpsCooperating * (e1 * numInner))
          + i * e1 + (lane % 32) * (e1 * numInner) + k
          + (if lane / 32 = 1 then elemsPerLane else 0) < 2 ^ 32 →
        offs[o * numInner * elemsPerLane + i * elemsPerLane + k]? =
          some (some (w * e0 * (e1 * numInner)
            + o * (e0 * warpsCooperating * (e1 * numInner))
            + i * e1 + (lane % 32) * (e1 * numInner) + k
            + (if lane / 32 = 1 then elemsPerLane else 0)))) := by
  obtain ⟨offs, h1, _, _, h4⟩ :=
    computeOffsetsTy1_spec (e0, e1) w lane warpsCooperating elemsPerLane (numOuter, numInner) cs
  have hidx : o * numInner * elemsPerLane + i * elemsPerLane + k
      = numInner * elemsPerLane * o + elemsPerLane * i + k := by ring
  have hhalf : (lane / 32 = 1) ↔ lane ≥ 32 := by omega
  have hval : offs[o * numInner * elemsPerLane + i * elemsPerLane + k]? =
      some (some ((w * e0 * (e1 * numInner) + o * (e0 * warpsCooperating * (e1 * numInner))
        + i * e1 + (lane % 32) * (e1 * numInner) + k
        + (if lane / 32 = 1 then elemsPerLane else 0)) % 2 ^ 32)) := by
    rw [hidx, h4 o i k ho hi hk]
    simp only [hhalf]
    congr 3
    split <;> ring
  refine ⟨offs, h1, hval, ?_⟩
  intro hlt
  rw [hval, Nat.mod_eq_of_lt hlt]

theorem computeOffsetsTy1_entry_witness :
    ∃ offs, computeOffsetsTy1 (32, 8) 1 33 2 4 (2, 3) 0 = .ok offs ∧
      offs[1 * 3 * 4 + 2 * 4 + 3]? =
        some (some ((1 * 32 * (8 * 3) + 1 * (32 * 2 * (8 * 3)) + 2 * 8 + (33 % 32) * (8 * 3) + 3
          + (if 33 / 32 = 1 then 4 else 0)) % 2 ^ 32)) ∧
      (1 * 32 * (8 * 3) + 1 * (32 * 2 * (8 * 3)) + 2 * 8 + (33 % 32) * (8 * 3) + 3
          + (if 33 / 32 = 1 then 4 else 0) < 2 ^ 32 →
        offs[1 * 3 * 4 + 2 * 4 + 3]? =
          some (some (1 * 32 * (8 * 3) + 1 * (32 * 2 * (8 * 3)) + 2 * 8
            + (33 % 32) * (8 * 3) + 3 + (if 33 / 32 = 1 then 4 else 0)))) :=
  computeOffsetsTy1_entry 32 8 2 3 2 4 1 33 0 1 2 3 (by decide) (by decide) (by decide)
    (by decide)

/-- C2, as stated, fails, in two ways. With instruction tile `(1, 1)`, `numOuter = 2`,
`numInner = 1`, one cooperating warp, one element per lane, wave coordinate `0` and lane `32`,
the entry at index `0` is `2` (the line length is `1 * 1 * numOuter = 2`), while the claimed
formula with line length `warpsCooperating * e1 * numInner = 1` gives `1`. And the offsets are
32-bit values: with instruction tile `(1, 2 ^ 31)`, repetitions `(1, 1)`, two cooperating
warps, one element per lane and lane `32`, the line length `2 * 2 ^ 31` is reduced to `0` and
the entry at index `0` is `0`, while the claimed sum is `2 ^ 32`. -/
theorem computeOffsetsTy2_lineLength_numInner_counterexample :
    (computeOffsetsTy2 (1, 1) 0 32 1 1 (1, 2) 0 = .ok [some 2, some 3] ∧
     ¬ ∃ offs, computeOffsetsTy2 (1, 1) 0 32 1 1 (1, 2) 0 = .ok offs ∧
      offs[0 * 1 * 1 + 0 * 1 + 0]? =
        some (some (0 * 1 + 0 * (1 * 1) + 0 * (1 * (1 * 1 * 1)) + 0 * (1 * 1 * 1)
          + (if 32 ≥ 32 then 1 * (1 * 1 * 1) else 0) + 32 % 32))) ∧
    (computeOffsetsTy2 (1, 2147483648) 0 32 2 1 (1, 1) 0 = .ok [some 0] ∧
     ¬ ∃ offs, computeOffsetsTy2 (1, 2147483648) 0 32 2 1 (1, 1) 0 = .ok offs ∧
      offs[0 * 1 * 1 + 0 * 1 + 0]? =
        some (some (0 * 2147483648 + 0 * (2147483648 * 2) + 0 * (1 * (2 * 2147483648 * 1))
          + 0 * (2 * 2147483648 * 1)
          + (if 32 ≥ 32 then 1 * (2 * 2147483648 * 1) else 0) + 32 % 32))) := by
  have h : computeOffsetsTy2 (1, 1) 0 32 1 1 (1, 2) 0 = .ok [some 2, some 3] := by decide
  have h' : computeOffsetsTy2 (1, 2147483648) 0 32 2 1 (1, 1) 0 = .ok [some 0] := by decide
  refine ⟨⟨h, ?_⟩, ⟨h', ?_⟩⟩
  · rintro ⟨offs, h1, h2⟩
    rw [h] at h1
    cases h1
    revert h2
    decide
  · rintro ⟨offs, h1, h2⟩
    rw [h'] at h1
    cases h1
    revert h2
    decide

/-- C2, amended. Layout-2 engine: for a lane in `[0, 64)` and every iteration `(o, i, k)`
within the repetition counts (`o` the block loop with trip count `numOuter = reps[1]`, `i` the
tile loop with trip count `numInner = reps[0]`), `computeOffsetsTy2` returns a list whose entry
at index `o * numInner * elemsPerLane + i * elemsPerLane + k` is the 32-bit value of
`w * e1 + o * (e1 * warpsCooperating) + i * (e0 * L) + k * L + lane % 32`, plus
`elemsPerLane * L` when `lane ≥ 32`: the sum reduced modulo `2 ^ 32`, hence the sum itself
whenever it is below `2 ^ 32`. The line length is `L = warpsCooperating * e1 * numOuter`: it
is built from the block loop's trip count, not from the `numInner` of the index scheme. -/
theorem computeOffsetsTy2_entry (e0 e1 numOuter numInner warpsCooperating elemsPerLane : Nat)
    (w lane cs o i k : Nat) (hlane : lane < 64)
    (ho : o < numOuter) (hi : i < numInner) (hk : k < elemsPerLane) :
    ∃ offs, computeOffsetsTy2 (e0, e1) w lane warpsCooperating elemsPerLane
        (numInner, numOuter) cs = .ok offs ∧
      offs[o * numInner * elemsPerLane + i * elemsPerLane + k]? =
        some (some ((w * e1 + o * (e1 * warpsCooperating)
          + i * (e0 * (warpsCooperating * e1 * numOuter))
          + k * (warpsCooperating * e1 * numOuter)
          + (if lane ≥ 32 then elemsPerLane * (warpsCooperating * e1 * numOuter) else 0)
          + lane % 32) % 2 ^ 32)) ∧
      (w * e1 + o * (e1 * warpsCooperating)
          + i * (e0 * (warpsCooperating * e1 * numOuter))
          + k * (warpsCooperating * e1 * numOuter)
          + (if lane ≥ 32 then elemsPerLane * (warpsCooperating * e1 * numOuter) else 0)
          + lane % 32 < 2 ^ 32 →
        offs[o * numInner * elemsPerLane + i * elemsPerLane + k]? =
          some (some (w * e1 + o * (e1 * warpsCooperating)
            + i * (e0 * (warpsCooperating * e1 * numOuter))
            + k * (warpsCooperating * e1 * numOuter)
            + (if lane ≥ 32 then elemsPerLane * (warpsCooperating * e1 * numOuter) else 0)
            + lane % 32))) := by
  obtain ⟨offs, h1, _, _, h4⟩ :=
    computeOffsetsTy2_spec (e0, e1) w lane warpsCooperating elemsPerLane (numInner, numOuter) cs
  have hidx : o * numInner * elemsPerLane + i * elemsPerLane + k
      = numInner * elemsPerLane * o + elemsPerLane * i + k := by ring
  have _ := hlane
  have hval : offs[o * numInner * elemsPerLane + i * elemsPerLane + k]? =
      some (some ((w * e1 + o * (e1 * warpsCooperating)
        + i * (e0 * (warpsCooperating * e1 * numOuter))
        + k * (warpsCooperating * e1 * numOuter)
        + (if lane ≥ 32 then elemsPerLane * (warpsCooperating * e1 * numOuter) else 0)
        + lane % 32) % 2 ^ 32)) := by
    rw [hidx, h4 o i k ho hi hk]
    congr 3
    split <;> ring
  refine ⟨offs, h1, hval, ?_⟩
  intro hlt
  rw [hval, Nat.mod_eq_of_lt hlt]

theorem computeOffsetsTy2_entry_witness :
    ∃ offs, computeOffsetsTy2 (8, 32) 1 33 2 4 (3, 2) 0 = .ok offs ∧
      offs[1 * 3 * 4 + 2 * 4 + 3]? =
        some (some ((1 * 32 + 1 * (32 * 2) + 2 * (8 * (2 * 32 * 2)) + 3 * (2 * 32 * 2)
          + (if 33 ≥ 32 then 4 * (2 * 32 * 2) else 0) + 33 % 32) % 2 ^ 32)) ∧
      (1 * 32 + 1 * (32 * 2) + 2 * (8 * (2 * 32 * 2)) + 3 * (2 * 32 * 2)
          + (if 33 ≥ 32 then 4 * (2 * 32 * 2) else 0) + 33 % 32 < 2 ^ 32 →
        offs[1 * 3 * 4 + 2 * 4 + 3]? =
          some (some (1 * 32 + 1 * (32 * 2) + 2 * (8 * (2 * 32 * 2)) + 3 * (2 * 32 * 2)
            + (if 33 ≥ 32 then 4 * (2 * 32 * 2) else 0) + 33 % 32))) :=
  computeOffsetsTy2_entry 8 32 2 3 2 4 1 33 0 1 2 3 (by decide) (by decide) (by decide)
    (by decide)

/-- C3. For each of the two engines and every `reps = (r0, r1)` and `elemsPerLane`, the
returned list has length exactly `r0 * r1 * elemsPerLane` and every entry of it is assigned;
no write is out of range (the engine does not fail), and the index map
`(block, tile, elem) ↦ numInner * elemsPerLane * block + elemsPerLane * tile + elem` of the
triple loop (block below `r0`, tile below `numInner = r1` in layout 1; block below `r1`, tile
below `numInner = r0` in layout 2) is a bijection from the iteration triples onto
`[0, length)`. -/
theorem offsetList_length_and_index_bijection (e : Nat × Nat)
    (w lane warpsPerGroup elemsPerLane r0 r1 cs : Nat) :
    (∃ offs, computeOffsetsTy1 e w lane warpsPerGroup elemsPerLane (r0, r1) cs = .ok offs ∧
      offs.length = r0 * r1 * elemsPerLane ∧
      ∀ j, j < r0 * r1 * elemsPerLane → ∃ v, offs[j]? = some (some v)) ∧
    (∃ offs, computeOffsetsTy2 e w lane warpsPerGroup elemsPerLane (r0, r1) cs = .ok offs ∧
      offs.length = r0 * r1 * elemsPerLane ∧
      ∀ j, j < r0 * r1 * elemsPerLane → ∃ v, offs[j]? = some (some v)) ∧
    IndexBijection r0 r1 elemsPerLane (r0 * r1 * elemsPerLane) ∧
    IndexBijection r1 r0 elemsPerLane (r0 * r1 * elemsPerLane) := by
  refine ⟨?_, ?_, indexBijection_tripleLoop r0 r1 elemsPerLane, ?_⟩
  · obtain ⟨offs, h1, h2, h3, _⟩ :=
      computeOffsetsTy1_spec e w lane warpsPerGroup elemsPerLane (r0, r1) cs
    exact ⟨offs, h1, h2, h3⟩
  · obtain ⟨offs, h1, h2, h3, _⟩ :=
      computeOffsetsTy2_spec e w lane warpsPerGroup elemsPerLane (r0, r1) cs
    exact ⟨offs, h1, h2, h3⟩
  · have h : r0 * r1 * elemsPerLane = r1 * r0 * elemsPerLane := by ring
    rw [h]
    exact indexBijection_tripleLoop r1 r0 elemsPerLane

/-- C4, as stated, fails, in two ways. With instruction tile `(1, 1)`, repetitions `(1, 1)`,
one cooperating warp, one element per lane, wave coordinate `0` and lane `31`, the layout-1
list is `[31]`, while the tile has `rows * cols = (1 * 1 * 1) * (1 * 1) = 1` element. And the
offsets are 32-bit values: with instruction tile `(32, 2 ^ 27)`, repetitions `(1, 1)`, one
cooperating warp, one element per lane and lane `16`, the layout-1 list is `[2 ^ 31]`, which
read as a signed 32-bit value is `-2 ^ 31`, not `≥ 0`. -/
theorem offsets_within_tile_counterexample :
    (computeOffsetsTy1 (1, 1) 0 31 1 1 (1, 1) 0 = .ok [some 31] ∧
     ¬ ∃ offs, computeOffsetsTy1 (1, 1) 0 31 1 1 (1, 1) 0 = .ok offs ∧
      ∀ j, j < offs.length → ∃ v, offs[j]? = some (some v) ∧ v < (1 * 1 * 1) * (1 * 1)) ∧
    (computeOffsetsTy1 (32, 134217728) 0 16 1 1 (1, 1) 0 = .ok [some 2147483648] ∧
     toInt 2147483648 = -2147483648 ∧
     ¬ ∃ offs, computeOffsetsTy1 (32, 134217728) 0 16 1 1 (1, 1) 0 = .ok offs ∧
      ∀ j, j < offs.length → ∃ v : Nat, offs[j]? = some (some v) ∧ 0 ≤ toInt v) := by
  have h : computeOffsetsTy1 (1, 1) 0 31 1 1 (1, 1) 0 = .ok [some 31] := by decide
  have h' : computeOffsetsTy1 (32, 134217728) 0 16 1 1 (1, 1) 0 = .ok [some 2147483648] := by
    decide
  refine ⟨⟨h, ?_⟩, ⟨h', by decide, ?_⟩⟩
  · rintro ⟨offs, h1, h2⟩
    rw [h] at h1
    cases h1
    obtain ⟨v, hv, hlt⟩ := h2 0 (by decide)
    simp at hv
    omega
  · rintro ⟨offs, h1, h2⟩
    rw [h'] at h1
    cases h1
    obtain ⟨v, hv, hlt⟩ := h2 0 (by decide)
    simp at hv
    subst hv
    revert hlt
    decide

/-- A 32-bit pattern below a bound of at most `2 ^ 31` is, read as a signed 32-bit value,
non-negative and below the same bound. -/
theorem signed_of_lt (v m : Nat) (h : v < m) (hm : m ≤ 2 ^ 31) :
    0 ≤ toInt v ∧ toInt v < (m : Int) := by
  unfold toInt
  omega

/-- C4, amended. For a wave coordinate below `warpsCooperating` and a lane in `[0, 64)`, when
the tile is exactly instruction tile x wave coverage x repetitions and holds at most `2 ^ 31`
elements, every value of the list, read as a signed 32-bit value, is `≥ 0` and below
`rows * cols`, provided the instruction tile has the MFMA geometry the engines are written for: in layout 1
(`rows = e0 * g * r0`, `cols = e1 * r1`) the 32 lanes of a half-wave fit the rows of the tile,
`32 ≤ e0`, and the two half-waves fit its columns, `2 * elemsPerLane ≤ e1`; in layout 2
(`rows = e0 * r0`, `cols = g * e1 * r1`) `32 ≤ e1` and `2 * elemsPerLane ≤ e0`. -/
theorem offsets_within_tile (e0 e1 r0 r1 g n w lane cs : Nat) (hw : w < g)
    (hlane : lane < 64) :
    (32 ≤ e0 → 2 * n ≤ e1 → (e0 * g * r0) * (e1 * r1) ≤ 2 ^ 31 →
      ∃ offs, computeOffsetsTy1 (e0, e1) w lane g n (r0, r1) cs = .ok offs ∧
        ∀ j, j < offs.length → ∃ v : Nat, offs[j]? = some (some v) ∧
          0 ≤ toInt v ∧ toInt v < ((e0 * g * r0) * (e1 * r1) : Nat)) ∧
    (32 ≤ e1 → 2 * n ≤ e0 → (e0 * r0) * (g * e1 * r1) ≤ 2 ^ 31 →
      ∃ offs, computeOffsetsTy2 (e0, e1) w lane g n (r0, r1) cs = .ok offs ∧
        ∀ j, j < offs.length → ∃ v : Nat, offs[j]? = some (some v) ∧
          0 ≤ toInt v ∧ toInt v < ((e0 * r0) * (g * e1 * r1) : Nat)) := by
  have hl32 : lane % 32 < 32 := Nat.mod_lt _ (by decide)
  have _ := hlane
  constructor
  · intro he0 he1 hext
    obtain ⟨offs, h1, h2, h3⟩ := computeOffsetsTy1_allEntries (e0, e1) w lane g n (r0, r1) cs
    refine ⟨offs, h1, ?_⟩
    intro j hj
    obtain ⟨b, t, k, hb, ht, hk, hv⟩ := h3 j (h2 ▸ hj)
    simp only at hb ht hv
    have hhalf' : (if lane ≥ 32 then n else 0) ≤ n := by split <;> omega
    have hrow := coord_bound w b g r0 e0 (lane % 32) hw hb (by omega)
    have hcol : t * e1 + (k + if lane ≥ 32 then n else 0) < e1 * r1 := by
      have := lin_bound t (k + if lane ≥ 32 then n else 0) r1 e1 ht (by omega)
      rwa [Nat.mul_comm r1 e1] at this
    have hlin := lin_bound _ _ _ _ hrow hcol
    have hlt : w * (e0 * (e1 * r1)) + b * (e0 * g * (e1 * r1)) + t * e1
          + (lane % 32 * (e1 * r1) + k + if lane ≥ 32 then n else 0)
        < e0 * g * r0 * (e1 * r1) :=
      calc w * (e0 * (e1 * r1)) + b * (e0 * g * (e1 * r1)) + t * e1
            + (lane % 32 * (e1 * r1) + k + if lane ≥ 32 then n else 0)
          = ((w + b * g) * e0 + lane % 32) * (e1 * r1)
              + (t * e1 + (k + if lane ≥ 32 then n else 0)) := by ring
        _ < e0 * g * r0 * (e1 * r1) := hlin
    rw [Nat.mod_eq_of_lt (by omega)] at hv
    exact ⟨_, hv, signed_of_lt _ _ hlt hext⟩
  · intro he1 he0 hext
    obtain ⟨offs, h1, h2, h3⟩ := computeOffsetsTy2_allEntries (e0, e1) w lane g n (r0, r1) cs
    refine ⟨offs, h1, ?_⟩
    intro j hj
    obtain ⟨b, t, k, hb, ht, hk, hv⟩ := h3 j (h2 ▸ hj)
    simp only at hb ht hv
    have hhalf : ∃ half, half ≤ n ∧
        (if lane ≥ 32 then n * (g * e1 * r1) else 0) = half * (g * e1 * r1) := by
      by_cases h : lane ≥ 32
      · exact ⟨n, le_refl _, by simp [h]⟩
      · exact ⟨0, Nat.zero_le _, by simp [h]⟩
    obtain ⟨half, hhalf', hhalfeq⟩ := hhalf
    rw [hhalfeq] at hv
    have hcol : (w + b * g) * e1 + lane % 32 < g * e1 * r1 := by
      have := coord_bound w b g r1 e1 (lane % 32) hw hb (by omega)
      have e : e1 * g * r1 = g * e1 * r1 := by ring
      omega
    have hrow : t * e0 + (k + half) < e0 * r0 := by
      have := lin_bound t (k + half) r0 e0 ht (by omega)
      rwa [Nat.mul_comm r0 e0] at this
    have hlin := lin_bound _ _ _ _ hrow hcol
    have hlt : w * e1 + b * e1 * g + t * e0 * (g * e1 * r1)
          + (k * (g * e1 * r1) + half * (g * e1 * r1) + lane % 32)
        < e0 * r0 * (g * e1 * r1) :=
      calc w * e1 + b * e1 * g + t * e0 * (g * e1 * r1)
            + (k * (g * e1 * r1) + half * (g * e1 * r1) + lane % 32)
          = (t * e0 + (k + half)) * (g * e1 * r1) + ((w + b * g) * e1 + lane % 32) := by ring
        _ < e0 * r0 * (g * e1 * r1) := hlin
    rw [Nat.mod_eq_of_lt (by omega)] at hv
    exact ⟨_, hv, signed_of_lt _ _ hlt hext⟩

theorem offsets_within_tile_witness :
    (∃ offs, computeOffsetsTy1 (32, 8) 1 63 2 4 (2, 3) 0 = .ok offs ∧
      ∀ j, j < offs.length → ∃ v : Nat, offs[j]? = some (some v) ∧
        0 ≤ toInt v ∧ toInt v < ((32 * 2 * 2) * (8 * 3) : Nat)) ∧
    (∃ offs, computeOffsetsTy2 (8, 32) 1 63 2 4 (3, 2) 0 = .ok offs ∧
      ∀ j, j < offs.length → ∃ v : Nat, offs[j]? = some (some v) ∧
        0 ≤ toInt v ∧ toInt v < ((8 * 3) * (2 * 32 * 2) : Nat)) :=
  ⟨(offsets_within_tile 32 8 2 3 2 4 1 63 0 (by decide) (by decide)).1 (by decide) (by decide)
      (by decide),
   (offsets_within_tile 8 32 3 2 2 4 1 63 0 (by decide) (by decide)).2 (by decide) (by decide)
      (by decide)⟩

/-- C5, as stated, fails, in two ways. With instruction tile `(1, 1)`, repetitions `(1, 1)`,
one cooperating warp and one element per lane, lanes `1` and `32` of wave `0` both get the
offset `1` at (outer, inner) = `(0, 0)`. And the offsets are 32-bit values: with instruction
tile `(32, 2 ^ 31)`, repetitions `(1, 2)`, one cooperating warp and one element per lane, the
line length `2 ^ 31 * 2` is reduced to `0` and lanes `0` and `1` of wave `0` get the same
list `[0, 2 ^ 31]`. -/
theorem lanes_disjoint_counterexample :
    ((1 : Nat) ≠ 32 ∧
     computeOffsetsTy1 (1, 1) 0 1 1 1 (1, 1) 0 = .ok [some 1] ∧
     computeOffsetsTy1 (1, 1) 0 32 1 1 (1, 1) 0 = .ok [some 1]) ∧
    ((0 : Nat) ≠ 1 ∧
     computeOffsetsTy1 (32, 2147483648) 0 0 1 1 (1, 2) 0 = .ok [some 0, some 2147483648] ∧
     computeOffsetsTy1 (32, 2147483648) 0 1 1 1 (1, 2) 0 = .ok [some 0, some 2147483648]) := by
  decide

/-- Two offsets from a common base that agree modulo `2 ^ 32` and whose displacements are
below `2 ^ 32` have equal displacements. -/
theorem displacement_eq (a1 a2 base x1 x2 : Nat) (e1 : a1 = base + x1) (e2 : a2 = base + x2)
    (h1 : x1 < 2 ^ 32) (h2 : x2 < 2 ^ 32) (h : a1 % 2 ^ 32 = a2 % 2 ^ 32) : x1 = x2 := by
  subst e1 e2
  have hc : Nat.ModEq (2 ^ 32) x1 x2 := Nat.ModEq.add_left_cancel' base h
  unfold Nat.ModEq at hc
  rwa [Nat.mod_eq_of_lt h1, Nat.mod_eq_of_lt h2] at hc

/-- C5, amended. For two distinct lanes `l1 ≠ l2` in `[0, 64)` of the same wave and the same
(outer, inner) repetition pair, no offset produced for `l1` equals an offset produced for
`l2`, provided the line is long enough to keep the lanes apart and the 32-bit offsets of one
(outer, inner) block do not wrap: in layout 1 the line length `L = e1 * numInner` satisfies
`2 * elemsPerLane ≤ L` and `32 * L ≤ 2 ^ 32`; in layout 2 the line length
`L = warpsCooperating * e1 * reps[1]` satisfies `32 ≤ L` and
`2 * elemsPerLane * L ≤ 2 ^ 32`. -/
theorem lanes_read_distinct_elements (e0 e1 r0 r1 g n w cs l1 l2 o i k1 k2 : Nat)
    (hl1 : l1 < 64) (hl2 : l2 < 64) (hne : l1 ≠ l2) (hk1 : k1 < n) (hk2 : k2 < n) :
    (2 * n ≤ e1 * r1 → 32 * (e1 * r1) ≤ 2 ^ 32 → o < r0 → i < r1 →
      ∃ offs1 offs2 v1 v2,
        computeOffsetsTy1 (e0, e1) w l1 g n (r0, r1) cs = .ok offs1 ∧
        computeOffsetsTy1 (e0, e1) w l2 g n (r0, r1) cs = .ok offs2 ∧
        offs1[r1 * n * o + n * i + k1]? = some (some v1) ∧
        offs2[r1 * n * o + n * i + k2]? = some (some v2) ∧ v1 ≠ v2) ∧
    (32 ≤ g * e1 * r1 → 2 * n * (g * e1 * r1) ≤ 2 ^ 32 → o < r1 → i < r0 →
      ∃ offs1 offs2 v1 v2,
        computeOffsetsTy2 (e0, e1) w l1 g n (r0, r1) cs = .ok offs1 ∧
        computeOffsetsTy2 (e0, e1) w l2 g n (r0, r1) cs = .ok offs2 ∧
        offs1[r0 * n * o + n * i + k1]? = some (some v1) ∧
        offs2[r0 * n * o + n * i + k2]? = some (some v2) ∧ v1 ≠ v2) := by
  have hm1 : l1 % 32 < 32 := Nat.mod_lt _ (by decide)
  have hm2 : l2 % 32 < 32 := Nat.mod_lt _ (by decide)
  constructor
  · intro hL hW ho hi
    obtain ⟨offs1, a1, _, _, a4⟩ := computeOffsetsTy1_spec (e0, e1) w l1 g n (r0, r1) cs
    obtain ⟨offs2, b1, _, _, b4⟩ := computeOffsetsTy1_spec (e0, e1) w l2 g n (r0, r1) cs
    refine ⟨offs1, offs2, _, _, a1, b1, a4 o i k1 ho hi hk1, b4 o i k2 ho hi hk2, ?_⟩
    simp only
    intro heq
    have hh1 : (if l1 ≥ 32 then n else 0) ≤ n := by split <;> omega
    have hh2 : (if l2 ≥ 32 then n else 0) ≤ n := by split <;> omega
    have hx1 : l1 % 32 * (e1 * r1) + (k1 + if l1 ≥ 32 then n else 0) < 32 * (e1 * r1) :=
      lin_bound _ _ _ _ hm1 (by omega)
    have hx2 : l2 % 32 * (e1 * r1) + (k2 + if l2 ≥ 32 then n else 0) < 32 * (e1 * r1) :=
      lin_bound _ _ _ _ hm2 (by omega)
    have heq' : l1 % 32 * (e1 * r1) + (k1 + if l1 ≥ 32 then n else 0)
        = l2 % 32 * (e1 * r1) + (k2 + if l2 ≥ 32 then n else 0) := by
      refine displacement_eq _ _ (w * (e0 * (e1 * r1)) + o * (e0 * g * (e1 * r1)) + i * e1)
        _ _ ?_ ?_ (by omega) (by omega) heq
      · ring
      · ring
    obtain ⟨u1, u2⟩ := lin_unique _ _ _ _ _ (by omega) (by omega) heq'
    split at u2 <;> split at u2 <;> omega
  · intro hL hW ho hi
    obtain ⟨offs1, a1, _, _, a4⟩ := computeOffsetsTy2_spec (e0, e1) w l1 g n (r0, r1) cs
    obtain ⟨offs2, b1, _, _, b4⟩ := computeOffsetsTy2_spec (e0, e1) w l2 g n (r0, r1) cs
    refine ⟨offs1, offs2, _, _, a1, b1, a4 o i k1 ho hi hk1, b4 o i k2 ho hi hk2, ?_⟩
    simp only
    intro heq
    have half : ∀ l : Nat, (if l ≥ 32 then n * (g * e1 * r1) else 0)
        = (if l ≥ 32 then n else 0) * (g * e1 * r1) := by
      intro l; split <;> simp
    rw [half l1, half l2] at heq
    have hh1 : (if l1 ≥ 32 then n else 0) ≤ n := by split <;> omega
    have hh2 : (if l2 ≥ 32 then n else 0) ≤ n := by split <;> omega
    have hx1 : (k1 + if l1 ≥ 32 then n else 0) * (g * e1 * r1) + l1 % 32
        < 2 * n * (g * e1 * r1) := lin_bound _ _ _ _ (by omega) (by omega)
    have hx2 : (k2 + if l2 ≥ 32 then n else 0) * (g * e1 * r1) + l2 % 32
        < 2 * n * (g * e1 * r1) := lin_bound _ _ _ _ (by omega) (by omega)
    have heq' : (k1 + if l1 ≥ 32 then n else 0) * (g * e1 * r1) + l1 % 32
        = (k2 + if l2 ≥ 32 then n else 0) * (g * e1 * r1) + l2 % 32 := by
      refine displacement_eq _ _ (w * e1 + o * e1 * g + i * e0 * (g * e1 * r1))
        _ _ ?_ ?_ (by omega) (by omega) heq
      · ring
      · ring
    obtain ⟨u1, u2⟩ := lin_unique _ _ _ _ _ (by omega) (by omega) heq'
    split at u1 <;> split at u1 <;> omega

theorem lanes_read_distinct_elements_witness :
    (∃ offs1 offs2 v1 v2,
      computeOffsetsTy1 (32, 8) 1 1 2 4 (2, 3) 0 = .ok offs1 ∧
      computeOffsetsTy1 (32, 8) 1 32 2 4 (2, 3) 0 = .ok offs2 ∧
      offs1[3 * 4 * 1 + 4 * 2 + 0]? = some (some v1) ∧
      offs2[3 * 4 * 1 + 4 * 2 + 3]? = some (some v2) ∧ v1 ≠ v2) ∧
    (∃ offs1 offs2 v1 v2,
      computeOffsetsTy2 (8, 32) 1 1 2 4 (3, 2) 0 = .ok offs1 ∧
      computeOffsetsTy2 (8, 32) 1 32 2 4 (3, 2) 0 = .ok offs2 ∧
      offs1[3 * 4 * 1 + 4 * 2 + 0]? = some (some v1) ∧
      offs2[3 * 4 * 1 + 4 * 2 + 3]? = some (some v2) ∧ v1 ≠ v2) :=
  ⟨(lanes_read_distinct_elements 32 8 2 3 2 4 1 0 1 32 1 2 0 3 (by decide) (by decide)
      (by decide) (by decide) (by decide)).1 (by decide) (by decide) (by decide) (by decide),
   (lanes_read_distinct_elements 8 32 3 2 2 4 1 0 1 32 1 2 0 3 (by decide) (by decide)
      (by decide) (by decide) (by decide)).2 (by decide) (by decide) (by decide) (by decide)⟩

/-- C6, as stated, fails. For the instruction tile `(32, 8)` with repetitions `(1, 1)`, one
cooperating warp, four elements per lane, wave coordinate `0` and lane `1`, the layout-1
engine returns `[8, 9, 10, 11]`, while the layout-2 engine called with the exchanged extents
`(8, 32)` and exchanged counts returns `[1, 33, 65, 97]`. -/
theorem engines_duality_counterexample :
    computeOffsetsTy1 (32, 8) 0 1 1 4 (1, 1) 0 = .ok [some 8, some 9, some 10, some 11] ∧
    computeOffsetsTy2 (8, 32) 0 1 1 4 (1, 1) 0 = .ok [some 1, some 33, some 65, some 97] ∧
    computeOffsetsTy2 (8, 32) 0 1 1 4 (1, 1) 0 ≠ computeOffsetsTy1 (32, 8) 0 1 1 4 (1, 1) 0 := by
  decide

/-- C6, amended. Duality between the engines: `computeOffsetsTy2` called with exchanged
extents `(e1, e0)` and exchanged counts `(r1, r0)` returns a list of the same length as
`computeOffsetsTy1` called with `(e0, e1)` and `(r0, r1)`, and at every index
`r1 * n * o + n * i + k` the two entries address the same logical tile element
`(row, col)`, `row = (w + o * g) * e0 + lane % 32` and
`col = i * e1 + k + (n if lane ≥ 32 else 0)`: the layout-1 entry is the 32-bit value of its
row-major offset `row * (e1 * r1) + col`, the layout-2 entry the 32-bit value of its
column-major offset `col * (g * e0 * r0) + row`. -/
theorem engines_transpose_duality (e0 e1 r0 r1 w lane g n cs : Nat) :
    ∃ offs1 offs2,
      computeOffsetsTy1 (e0, e1) w lane g n (r0, r1) cs = .ok offs1 ∧
      computeOffsetsTy2 (e1, e0) w lane g n (r1, r0) cs = .ok offs2 ∧
      offs1.length = offs2.length ∧
      ∀ o i k, o < r0 → i < r1 → k < n →
        offs1[r1 * n * o + n * i + k]? =
          some (some ((((w + o * g) * e0 + lane % 32) * (e1 * r1)
            + (i * e1 + k + if lane ≥ 32 then n else 0)) % 2 ^ 32)) ∧
        offs2[r1 * n * o + n * i + k]? =
          some (some (((i * e1 + k + if lane ≥ 32 then n else 0) * (g * e0 * r0)
            + ((w + o * g) * e0 + lane % 32)) % 2 ^ 32)) := by
  obtain ⟨offs1, a1, a2, _, a4⟩ := computeOffsetsTy1_spec (e0, e1) w lane g n (r0, r1) cs
  obtain ⟨offs2, b1, b2, _, b4⟩ := computeOffsetsTy2_spec (e1, e0) w lane g n (r1, r0) cs
  refine ⟨offs1, offs2, a1, b1, ?_, ?_⟩
  · rw [a2, b2]; simp only; ring
  · intro o i k ho hi hk
    rw [a4 o i k ho hi hk, b4 o i k ho hi hk]
    simp only
    constructor
    · congr 3
      split <;> ring
    · congr 3
      split <;> ring

/-! ## The transposition selector -/

theorem mask_testBit (i : Nat) (h1 : 1 ≤ i) (h2 : i < 32) :
    (2 ^ 64 - 2 : Nat).testBit i = true := by
  interval_cases i <;> decide

/-- On a 32-bit value the test `(x & ~1ul) == 0` holds exactly for `0` and `1`. -/
theorem land_mask_eq_zero (x : Nat) (hx : x < 2 ^ 32) : x &&& (2 ^ 64 - 2) = 0 ↔ x < 2 := by
  constructor
  · intro h
    by_contra hge
    have hne : x / 2 ≠ 0 := by omega
    obtain ⟨i, hi⟩ := Nat.ne_zero_implies_bit_true hne
    have hi' : x.testBit (i + 1) = true := by
      rw [Nat.testBit_succ]; exact hi
    have hlt : i + 1 < 32 := by
      by_contra hc
      have : x < 2 ^ (i + 1) :=
        lt_of_lt_of_le hx (Nat.pow_le_pow_right (by decide) (by omega))
      rw [Nat.testBit_lt_two_pow this] at hi'
      exact Bool.noConfusion hi'
    have hb : (x &&& (2 ^ 64 - 2)).testBit (i + 1) = true := by
      rw [Nat.testBit_and, hi', mask_testBit (i + 1) (by omega) hlt]; rfl
    rw [h] at hb
    simp at hb
  · intro h
    interval_cases x <;> decide

/-- The precondition of `isTransposed` on a pair of 32-bit values. -/
theorem isTransposed_pair (o0 o1 : Nat) (h0 : o0 < 2 ^ 32) (h1 : o1 < 2 ^ 32) :
    isTransposed [o0, o1] =
      if (o0 = 0 ∧ o1 = 1) ∨ (o0 = 1 ∧ o1 = 0) then .ok (o0 == 0)
      else .error .malformedOrder := by
  have hm := land_mask_eq_zero o0 h0
  have hiff : (o0 &&& (2 ^ 64 - 2) = 0 ∧ (o0 + o1) % 2 ^ 32 = 1) ↔
      ((o0 = 0 ∧ o1 = 1) ∨ (o0 = 1 ∧ o1 = 0)) := by
    rw [hm]
    constructor
    · rintro ⟨ha, hb⟩
      omega
    · rintro (⟨ha, hb⟩ | ⟨ha, hb⟩) <;> subst ha <;> subst hb <;> decide
  simp only [isTransposed, hiff]

theorem loadAOffsets_ok_order (inp : LoaderInput) (offs : OffsetList)
    (h : loadAOffsets inp = .ok offs) : ∃ b, isTransposed inp.order = .ok b := by
  unfold loadAOffsets at h
  simp only [bind, Except.bind] at h
  repeat (split at h <;> try contradiction)
  all_goals exact ⟨_, by assumption⟩

theorem loadBOffsets_ok_order (inp : LoaderInput) (offs : OffsetList)
    (h : loadBOffsets inp = .ok offs) : ∃ b, isTransposed inp.order = .ok b := by
  unfold loadBOffsets at h
  simp only [bind, Except.bind] at h
  repeat (split at h <;> try contradiction)
  all_goals exact ⟨_, by assumption⟩

/-- C7. On 32-bit `unsigned` entries (wrapping sum included), `isTransposed` passes its
precondition check exactly when `order` is `[0, 1]` or `[1, 0]`; when it passes, it returns
`true` exactly when `order[0] = 0`. The order `{0, 0}` is rejected, and a loader whose storage
order is rejected produces no offset list, in `loadA` and in `loadB`. -/
theorem isTransposed_precondition (order : List Nat) (h32 : ∀ x ∈ order, x < 2 ^ 32) :
    ((∃ b, isTransposed order = .ok b) ↔ (order = [0, 1] ∨ order = [1, 0])) ∧
    (∀ b, isTransposed order = .ok b → (b = true ↔ order[0]? = some 0)) ∧
    isTransposed [0, 0] = .error .malformedOrder ∧
    (∀ inp : LoaderInput, inp.order = order → (¬ ∃ b, isTransposed order = .ok b) →
      (¬ ∃ offs, loadAOffsets inp = .ok offs) ∧ (¬ ∃ offs, loadBOffsets inp = .ok offs)) := by
  refine ⟨?_, ?_, by decide, ?_⟩
  · match order, h32 with
    | [], _ => simp [isTransposed]
    | [_], _ => simp [isTransposed]
    | _ :: _ :: _ :: _, _ => simp [isTransposed]
    | [o0, o1], h32 =>
      rw [isTransposed_pair o0 o1 (h32 o0 (by simp)) (h32 o1 (by simp))]
      constructor
      · rintro ⟨b, hb⟩
        split at hb
        · rename_i hc
          rcases hc with ⟨ha, hb'⟩ | ⟨ha, hb'⟩ <;> subst ha <;> subst hb' <;> simp
        · exact absurd hb (by simp)
      · intro h
        simp only [List.cons.injEq, and_true] at h
        rw [if_pos h]
        exact ⟨_, rfl⟩
  · intro b hb
    match order, h32, hb with
    | [o0, o1], h32, hb =>
      rw [isTransposed_pair o0 o1 (h32 o0 (by simp)) (h32 o1 (by simp))] at hb
      split at hb
      · cases hb
        simp
      · exact absurd hb (by simp)
  · intro inp hinp hrej
    subst hinp
    exact ⟨fun ⟨offs, h⟩ => hrej (loadAOffsets_ok_order inp offs h),
      fun ⟨offs, h⟩ => hrej (loadBOffsets_ok_order inp offs h)⟩

theorem isTransposed_precondition_witness :
    (∀ x ∈ [0, 0], x < 2 ^ 32) ∧
    (¬ ∃ b, isTransposed [1, 4294967295] = .ok b) ∧
    (¬ ∃ offs, loadAOffsets
      { thread := 65, warpsPerCTA := (2, 2), shape := (64, 8), order := [0, 0],
        elemsPerInstr := (32, 8), numReps := (1, 1), iWaveSize := 64,
        getCSwizzleOffset := fun _ => 0 } = .ok offs) ∧
    (¬ ∃ offs, loadBOffsets
      { thread := 65, warpsPerCTA := (2, 2), shape := (8, 64), order := [0, 0],
        elemsPerInstr := (8, 32), numReps := (1, 1), iWaveSize := 64,
        getCSwizzleOffset := fun _ => 0 } = .ok offs) :=
  ⟨by decide,
   (isTransposed_precondition [1, 4294967295] (by decide)).1.not.mpr (by decide),
   ((isTransposed_precondition [0, 0] (by decide)).2.2.2 _ rfl
      ((isTransposed_precondition [0, 0] (by decide)).1.not.mpr (by decide))).1,
   ((isTransposed_precondition [0, 0] (by decide)).2.2.2 _ rfl
      ((isTransposed_precondition [0, 0] (by decide)).1.not.mpr (by decide))).2⟩

theorem getWaveM_eq (wave : Nat) (wpt : Nat × Nat) (elemPerInstr M : Nat)
    (h0 : 0 < wpt.1) (hq : 0 < M / elemPerInstr) :
    getWaveM wave wpt elemPerInstr M = .ok (wave % wpt.1 % (M / elemPerInstr)) := by
  have h0' : wpt.1 ≠ 0 := by omega
  have hq' : M / elemPerInstr ≠ 0 := by omega
  have he : elemPerInstr ≠ 0 := by
    intro h; rw [h, Nat.div_zero] at hq; omega
  simp only [getWaveM, cdiv, urem, bind, Except.bind, h0', hq', he, if_false]

theorem getWaveN_eq (wave : Nat) (wpt : Nat × Nat) (elemPerInstr N : Nat)
    (h0 : 0 < wpt.1) (h1 : 0 < wpt.2) (hq : 0 < N / elemPerInstr) :
    getWaveN wave wpt elemPerInstr N = .ok (wave / wpt.1 % wpt.2 % (N / elemPerInstr)) := by
  have h0' : wpt.1 ≠ 0 := by omega
  have h1' : wpt.2 ≠ 0 := by omega
  have hq' : N / elemPerInstr ≠ 0 := by omega
  have he : elemPerInstr ≠ 0 := by
    intro h; rw [h, Nat.div_zero] at hq; omega
  simp only [getWaveN, cdiv, urem, udiv, bind, Except.bind, h0', h1', hq', he, if_false]

/-- C9. Wave-coordinate clipping: for every wave id, every warp grid with both counts at least
one and every operand and instruction extent with `operandExtent / instrExtent ≥ 1`,
`getWaveM` and `getWaveN` return (no division or remainder by zero occurs) a coordinate below
`operandExtent / instrExtent`, which is also below the warpsPerGroup value of the same loader,
`min wpt0 (M / instrM)` in `loadA` and `min wpt1 (N / instrN)` in `loadB`. -/
theorem wave_coordinate_clipped (wave wpt0 wpt1 operandExtent instrExtent : Nat)
    (h0 : 1 ≤ wpt0) (h1 : 1 ≤ wpt1) (hq : 1 ≤ operandExtent / instrExtent) :
    (∃ c, getWaveM wave (wpt0, wpt1) instrExtent operandExtent = .ok c ∧
      c < operandExtent / instrExtent ∧ c < min wpt0 (operandExtent / instrExtent)) ∧
    (∃ c, getWaveN wave (wpt0, wpt1) instrExtent operandExtent = .ok c ∧
      c < operandExtent / instrExtent ∧ c < min wpt1 (operandExtent / instrExtent)) := by
  constructor
  · refine ⟨wave % wpt0 % (operandExtent / instrExtent),
      getWaveM_eq wave (wpt0, wpt1) instrExtent operandExtent h0 hq, ?_⟩
    have a : wave % wpt0 % (operandExtent / instrExtent) < operandExtent / instrExtent :=
      Nat.mod_lt _ hq
    have b : wave % wpt0 % (operandExtent / instrExtent) ≤ wave % wpt0 := Nat.mod_le _ _
    have c : wave % wpt0 < wpt0 := Nat.mod_lt _ h0
    exact ⟨a, lt_min (by omega) a⟩
  · refine ⟨wave / wpt0 % wpt1 % (operandExtent / instrExtent),
      getWaveN_eq wave (wpt0, wpt1) instrExtent operandExtent h0 h1 hq, ?_⟩
    have a : wave / wpt0 % wpt1 % (operandExtent / instrExtent) < operandExtent / instrExtent :=
      Nat.mod_lt _ hq
    have b : wave / wpt0 % wpt1 % (operandExtent / instrExtent) ≤ wave / wpt0 % wpt1 :=
      Nat.mod_le _ _
    have c : wave / wpt0 % wpt1 < wpt1 := Nat.mod_lt _ h1
    exact ⟨a, lt_min (by omega) a⟩

theorem wave_coordinate_clipped_witness :
    (∃ c, getWaveM 7 (4, 2) 32 64 = .ok c ∧ c < 64 / 32 ∧ c < min 4 (64 / 32)) ∧
    (∃ c, getWaveN 7 (4, 2) 32 64 = .ok c ∧ c < 64 / 32 ∧ c < min 2 (64 / 32)) :=
  wave_coordinate_clipped 7 4 2 64 32 (by decide) (by decide) (by decide)

/-- C10, as stated, fails for the row variant. With wave id `1`, warp grid `(2, 2)`,
`M = 2` and `instrM = 1`, `getWaveM` returns `1 % 2 % 2 = 1`, while the claimed
`((waveId / wavesAlongDim1) % wavesAlongDim0) % (M / instrM)` is `0`. -/
theorem getWaveM_divides_first_counterexample :
    getWaveM 1 (2, 2) 1 2 = .ok 1 ∧
    getWaveM 1 (2, 2) 1 2 ≠ .ok (1 / 2 % 2 % (2 / 1)) := by
  decide

/-- C10, amended. For every wave id and warp grid `(wavesAlongDim0, wavesAlongDim1)` with
non-zero divisors, the operand-A row variant `getWaveM` takes the wave id modulo
`wavesAlongDim0` directly, without dividing first:
`(waveId % wavesAlongDim0) % (M / instrM)`; the operand-B column variant `getWaveN` divides out
`wavesAlongDim0` first: `((waveId / wavesAlongDim0) % wavesAlongDim1) % (N / instrN)`. -/
theorem wave_coordinate_formulas (waveId wavesAlongDim0 wavesAlongDim1 M instrM N instrN : Nat)
    (h0 : 0 < wavesAlongDim0) (h1 : 0 < wavesAlongDim1)
    (hM : 0 < M / instrM) (hN : 0 < N / instrN) :
    getWaveM waveId (wavesAlongDim0, wavesAlongDim1) instrM M
      = .ok ((waveId % wavesAlongDim0) % (M / instrM)) ∧
    getWaveN waveId (wavesAlongDim0, wavesAlongDim1) instrN N
      = .ok (((waveId / wavesAlongDim0) % wavesAlongDim1) % (N / instrN)) :=
  ⟨getWaveM_eq waveId (wavesAlongDim0, wavesAlongDim1) instrM M h0 hM,
   getWaveN_eq waveId (wavesAlongDim0, wavesAlongDim1) instrN N h0 h1 hN⟩

theorem wave_coordinate_formulas_witness :
    getWaveM 7 (4, 2) 32 64 = .ok ((7 % 4) % (64 / 32)) ∧
    getWaveN 7 (4, 2) 32 128 = .ok (((7 / 4) % 2) % (128 / 32)) :=
  wave_coordinate_formulas 7 4 2 64 32 128 32 (by decide) (by decide) (by decide) (by decide)

/-! ## The half-warp split, the swizzle offset and the dispatch -/

/-- C11, as stated, fails. The offsets are 32-bit values and the sum wraps: with instruction
tile `(1, 1)`, repetitions `(1, 1)`, one cooperating warp, one element per lane and wave
coordinate `2 ^ 32 - 1`, the list of lane `0` is `[4294967295]` and the list of lane `32` is
`[0]`, not `[4294967295 + 1]`. -/
theorem halfWarp_split_wrap_counterexample :
    computeOffsetsTy1 (1, 1) 4294967295 0 1 1 (1, 1) 0 = .ok [some 4294967295] ∧
    computeOffsetsTy1 (1, 1) 4294967295 (0 + 32) 1 1 (1, 1) 0 = .ok [some 0] ∧
    (0 : Nat) ≠ 4294967295 + 1 := by
  decide

/-- C11, amended. Half-warp split of the layout-1 engine: for every geometry and wave
coordinate and every lane `l` in `[0, 32)`, the lists of lanes `l` and `l + 32` have the same
length and each entry for lane `l + 32` is the entry at the same index for lane `l` plus
`elemsPerLane`, reduced modulo `2 ^ 32`; when the list is not empty and the wave coordinate is
`0`, the first entry for lane `0` is `0` and the first entry for lane `32` is
`elemsPerLane mod 2 ^ 32`. For the instruction tile `(32, 8)` with repetitions `(2, 1)`, one
cooperating warp and `elemsPerLane = max (32 * 8 / 64) 1 = 4` the first offsets are `0` for
lane `0` and `4` for lane `32`. -/
theorem halfWarp_split (e0 e1 r0 r1 g n w cs l : Nat) (hl : l < 32) :
    (∃ offsLo offsHi,
      computeOffsetsTy1 (e0, e1) w l g n (r0, r1) cs = .ok offsLo ∧
      computeOffsetsTy1 (e0, e1) w (l + 32) g n (r0, r1) cs = .ok offsHi ∧
      offsLo.length = offsHi.length ∧
      ∀ j, j < offsLo.length →
        ∃ v, offsLo[j]? = some (some v) ∧ offsHi[j]? = some (some ((v + n) % 2 ^ 32))) ∧
    (0 < r0 → 0 < r1 → 0 < n →
      entryAt (computeOffsetsTy1 (e0, e1) 0 0 g n (r0, r1) cs) 0 = some 0 ∧
      entryAt (computeOffsetsTy1 (e0, e1) 0 32 g n (r0, r1) cs) 0 = some (n % 2 ^ 32)) ∧
    (max (32 * 8 / 64) 1 = 4 ∧
      entryAt (computeOffsetsTy1 (32, 8) 0 0 1 (max (32 * 8 / 64) 1) (2, 1) cs) 0 = some 0 ∧
      entryAt (computeOffsetsTy1 (32, 8) 0 32 1 (max (32 * 8 / 64) 1) (2, 1) cs) 0
        = some 4) := by
  have first : ∀ (a0 a1 q0 q1 q m lane : Nat), 0 < q0 → 0 < q1 → 0 < m →
      entryAt (computeOffsetsTy1 (a0, a1) 0 lane q m (q0, q1) cs) 0
        = some ((lane % 32 * (a1 * q1) + if lane ≥ 32 then m else 0) % 2 ^ 32) := by
    intro a0 a1 q0 q1 q m lane h0 h1 hm
    obtain ⟨offs, a, _, _, d⟩ := computeOffsetsTy1_spec (a0, a1) 0 lane q m (q0, q1) cs
    have := d 0 0 0 h0 h1 hm
    simp only [Nat.mul_zero, Nat.zero_mul, Nat.add_zero, Nat.zero_add] at this
    rw [a]
    simp [entryAt, this]
  refine ⟨?_, ?_, by decide, ?_, ?_⟩
  · obtain ⟨lo, a1, a2, _, a4⟩ := computeOffsetsTy1_spec (e0, e1) w l g n (r0, r1) cs
    obtain ⟨hi, b1, b2, _, b4⟩ := computeOffsetsTy1_spec (e0, e1) w (l + 32) g n (r0, r1) cs
    refine ⟨lo, hi, a1, b1, by rw [a2, b2], ?_⟩
    intro j hj
    obtain ⟨b, t, k, hb, ht, hk, hidx⟩ := (indexBijection_tripleLoop r0 r1 n).2.2 j (a2 ▸ hj)
    have hlo := a4 b t k hb ht hk
    have hhi := b4 b t k hb ht hk
    simp only at hlo hhi
    rw [hidx] at hlo hhi
    refine ⟨_, hlo, ?_⟩
    rw [hhi]
    have h1 : (l + 32) % 32 = l % 32 := by omega
    have h2 : l + 32 ≥ 32 := by omega
    have h3 : ¬ l ≥ 32 := by omega
    simp only [h1, h2, h3, if_true, if_false]
    congr 2
    rw [Nat.mod_add_mod]
    congr 1
    omega
  · intro h0 h1 hn
    rw [first e0 e1 r0 r1 g n 0 h0 h1 hn, first e0 e1 r0 r1 g n 32 h0 h1 hn]
    simp
  · rw [first 32 8 2 1 1 _ 0 (by decide) (by decide) (by decide)]
    simp
  · rw [first 32 8 2 1 1 _ 32 (by decide) (by decide) (by decide)]
    simp

theorem halfWarp_split_witness :
    (5 : Nat) < 32 ∧
    ∃ offsLo offsHi,
      computeOffsetsTy1 (32, 8) 1 5 2 4 (2, 3) 0 = .ok offsLo ∧
      computeOffsetsTy1 (32, 8) 1 (5 + 32) 2 4 (2, 3) 0 = .ok offsHi ∧
      offsLo.length = offsHi.length ∧
      ∀ j, j < offsLo.length →
        ∃ v, offsLo[j]? = some (some v) ∧ offsHi[j]? = some (some ((v + 4) % 2 ^ 32)) :=
  ⟨by decide, (halfWarp_split 32 8 2 3 2 4 1 0 5 (by decide)).1⟩

/-- C18. The swizzle-offset argument does not influence the engines: for every two values of
`cSwizzleOffset` and otherwise identical arguments `computeOffsetsTy1` returns the same result,
and so does `computeOffsetsTy2`; consequently the offset lists of `loadA` and `loadB` do not
depend on the swizzle offset service. -/
theorem swizzle_offset_irrelevant (e r : Nat × Nat) (w l g n cs1 cs2 : Nat)
    (inp : LoaderInput) (f1 f2 : Nat → Nat) :
    computeOffsetsTy1 e w l g n r cs1 = computeOffsetsTy1 e w l g n r cs2 ∧
    computeOffsetsTy2 e w l g n r cs1 = computeOffsetsTy2 e w l g n r cs2 ∧
    loadAOffsets { inp with getCSwizzleOffset := f1 }
      = loadAOffsets { inp with getCSwizzleOffset := f2 } ∧
    loadBOffsets { inp with getCSwizzleOffset := f1 }
      = loadBOffsets { inp with getCSwizzleOffset := f2 } :=
  ⟨rfl, rfl, rfl, rfl⟩

/-- C14. Dispatch: `convertLayout` with operand index `0` returns what `loadA` returns on the
same arguments, with index `1` what `loadB` returns, and for every other integer index it
fails with the fatal "unexpected operand idx" condition, whatever the loaders would return. -/
theorem convertLayout_dispatch (opIdx : Int) (inp : OperandInput) :
    convertLayout 0 inp = loadA inp ∧
    convertLayout 1 inp = loadB inp ∧
    (opIdx ≠ 0 → opIdx ≠ 1 → convertLayout opIdx inp = .error .unexpectedOperandIdx) := by
  refine ⟨rfl, rfl, ?_⟩
  intro h0 h1
  unfold convertLayout
  split
  · exact absurd rfl h0
  · exact absurd rfl h1
  · rfl

/-! ## The gather and pack loops of the loaders -/

theorem entryAt_ty1 (e : Nat × Nat) (w l g n : Nat) (r : Nat × Nat) (cs b t k : Nat)
    (hb : b < r.1) (ht : t < r.2) (hk : k < n) :
    entryAt (computeOffsetsTy1 e w l g n r cs) (r.2 * n * b + n * t + k) =
      some ((w * (e.1 * (e.2 * r.2)) + b * (e.1 * g * (e.2 * r.2)) + t * e.2 +
        (l % 32 * (e.2 * r.2) + k + if l ≥ 32 then n else 0)) % 2 ^ 32) := by
  obtain ⟨offs, h1, _, _, h4⟩ := computeOffsetsTy1_spec e w l g n r cs
  rw [h1]
  simp only [entryAt, h4 b t k hb ht hk]
  rfl

theorem entryAt_ty2 (e : Nat × Nat) (w l g n : Nat) (r : Nat × Nat) (cs b t k : Nat)
    (hb : b < r.2) (ht : t < r.1) (hk : k < n) :
    entryAt (computeOffsetsTy2 e w l g n r cs) (r.1 * n * b + n * t + k) =
      some ((w * e.2 + b * e.2 * g + t * e.1 * (g * e.2 * r.2) +
        (k * (g * e.2 * r.2) + (if l ≥ 32 then n * (g * e.2 * r.2) else 0) + l % 32))
        % 2 ^ 32) := by
  obtain ⟨offs, h1, _, _, h4⟩ := computeOffsetsTy2_spec e w l g n r cs
  rw [h1]
  simp only [entryAt, h4 b t k hb ht hk]
  rfl

/-- The row and column a tuple addresses are inside the tile. -/
theorem rowcol_range (g nO nI n w l o i k : Nat) (hw : w < g) (ho : o < nO)
    (hi : i < nI) (hk : k < n) :
    (w + o * g) * 32 + l % 32 < 32 * g * nO ∧
    i * (2 * n) + ((if l ≥ 32 then n else 0) + k) < 2 * n * nI := by
  constructor
  · exact coord_bound w o g nO 32 (l % 32) hw ho (Nat.mod_lt _ (by decide))
  · have hh : (if l ≥ 32 then n else 0) ≤ n := by split <;> omega
    have := lin_bound i ((if l ≥ 32 then n else 0) + k) nI (2 * n) hi (by omega)
    rwa [Nat.mul_comm nI (2 * n)] at this

/-- Distinct tuples address distinct (row, column) pairs. -/
theorem rowcol_inj (g n w l o i k w' l' o' i' k' : Nat)
    (hw : w < g) (hl : l < 64) (hk : k < n) (hw' : w' < g) (hl' : l' < 64) (hk' : k' < n)
    (hR : (w + o * g) * 32 + l % 32 = (w' + o' * g) * 32 + l' % 32)
    (hC : i * (2 * n) + ((if l ≥ 32 then n else 0) + k)
      = i' * (2 * n) + ((if l' ≥ 32 then n else 0) + k')) :
    w = w' ∧ l = l' ∧ o = o' ∧ i = i' ∧ k = k' := by
  have hm : l % 32 < 32 := Nat.mod_lt _ (by decide)
  have hm' : l' % 32 < 32 := Nat.mod_lt _ (by decide)
  obtain ⟨a1, a2⟩ := lin_unique _ _ _ _ 32 hm hm' hR
  have a1' : o * g + w = o' * g + w' := by omega
  obtain ⟨b1, b2⟩ := lin_unique _ _ _ _ g hw hw' a1'
  have hh : (if l ≥ 32 then n else 0) + k < 2 * n := by split <;> omega
  have hh' : (if l' ≥ 32 then n else 0) + k' < 2 * n := by split <;> omega
  obtain ⟨c1, c2⟩ := lin_unique _ _ _ _ (2 * n) hh hh' hC
  refine ⟨b2, ?_, b1, c1, ?_⟩
  · split at c2 <;> split at c2 <;> omega
  · split at c2 <;> split at c2 <;> omega

/-- Division with remainder, with the quotient bounded. -/
theorem divmod_pack (x d B : Nat) (hd : 0 < d) (hx : x < d * B) :
    ∃ q r, q < B ∧ r < d ∧ d * q + r = x :=
  ⟨x / d, x % d, by rw [Nat.div_lt_iff_lt_mul hd, Nat.mul_comm]; exact hx,
    Nat.mod_lt _ hd, Nat.div_add_mod x d⟩

/-- Every (row, column) pair of the tile is addressed by some tuple. -/
theorem rowcol_surj (g nO nI n R C : Nat) (hR : R < 32 * g * nO) (hC : C < 2 * n * nI) :
    ∃ w l o i k, w < g ∧ l < 64 ∧ o < nO ∧ i < nI ∧ k < n ∧
      (w + o * g) * 32 + l % 32 = R ∧
      i * (2 * n) + ((if l ≥ 32 then n else 0) + k) = C := by
  have hg : 0 < g := by
    rcases Nat.eq_zero_or_pos g with h | h
    · subst h; simp at hR
    · exact h
  have hn : 0 < n := by
    rcases Nat.eq_zero_or_pos n with h | h
    · subst h; simp at hC
    · exact h
  obtain ⟨wo, lo, hwo, hlo, e1⟩ := divmod_pack R 32 (g * nO) (by decide)
    (by rw [← Nat.mul_assoc]; exact hR)
  obtain ⟨o, w, ho, hw, e2⟩ := divmod_pack wo g nO hg hwo
  obtain ⟨i, c, hi, hc, e3⟩ := divmod_pack C (2 * n) nI (by omega) hC
  obtain ⟨hb, k, hhb, hk, e4⟩ := divmod_pack c n 2 hn (by omega)
  have e5 : o * g = g * o := Nat.mul_comm _ _
  have e6 : i * (2 * n) = 2 * n * i := Nat.mul_comm _ _
  refine ⟨w, 32 * hb + lo, o, i, k, hw, by omega, ho, hi, hk, ?_, ?_⟩
  · have : (32 * hb + lo) % 32 = lo := by omega
    rw [this, e5]
    omega
  · rw [e6]
    rcases Nat.lt_or_ge hb 1 with h | h
    · have hz : hb = 0 := by omega
      subst hz
      have : ¬ (32 * 0 + lo ≥ 32) := by omega
      rw [if_neg this]
      simp only [Nat.mul_zero] at e4
      omega
    · have hz : hb = 1 := by omega
      subst hz
      have : 32 * 1 + lo ≥ 32 := by omega
      rw [if_pos this]
      simp only [Nat.mul_one] at e4
      omega

/-- Every value below `NR * NC` is `R * NC + C` for a pair `R < NR`, `C < NC`. -/
theorem pair_surj (NR NC v : Nat) (hv : v < NR * NC) :
    ∃ R C, R < NR ∧ C < NC ∧ R * NC + C = v := by
  have hNC : 0 < NC := by
    rcases Nat.eq_zero_or_pos NC with h | h
    · subst h; simp at hv
    · exact h
  refine ⟨v / NC, v % NC, ?_, Nat.mod_lt _ hNC, ?_⟩
  · rw [Nat.div_lt_iff_lt_mul hNC]; exact hv
  · have := Nat.div_add_mod v NC
    rw [Nat.mul_comm] at this
    exact this

/-- Under the MFMA geometry, in a tile of at most `2 ^ 32` elements, the layout-1 offset is
the row-major offset of (row, column). -/
theorem ty1_value (n g nO nI cs w l o i k : Nat) (hw : w < g) (ho : o < nO) (hi : i < nI)
    (hk : k < n) (htotal : (32 * g * nO) * (2 * n * nI) ≤ 2 ^ 32) :
    entryAt (computeOffsetsTy1 (32, 2 * n) w l g n (nO, nI) cs) (nI * n * o + n * i + k) =
      some (((w + o * g) * 32 + l % 32) * (2 * n * nI)
        + (i * (2 * n) + ((if l ≥ 32 then n else 0) + k))) := by
  obtain ⟨hR, hC⟩ := rowcol_range g nO nI n w l o i k hw ho hi hk
  have hlt := lin_bound _ _ _ _ hR hC
  rw [entryAt_ty1 (32, 2 * n) w l g n (nO, nI) cs o i k ho hi hk]
  simp only
  have e : w * (32 * (2 * n * nI)) + o * (32 * g * (2 * n * nI)) + i * (2 * n)
        + (l % 32 * (2 * n * nI) + k + if l ≥ 32 then n else 0)
      = ((w + o * g) * 32 + l % 32) * (2 * n * nI)
        + (i * (2 * n) + ((if l ≥ 32 then n else 0) + k)) := by ring
  rw [e, Nat.mod_eq_of_lt (by omega)]

/-- Under the MFMA geometry, in a tile of at most `2 ^ 32` elements, the layout-2 offset is
the column-major offset of (row, column). -/
theorem ty2_value (n g numK numN cs w l b t k : Nat) (hw : w < g) (hb : b < numN)
    (ht : t < numK) (hk : k < n) (htotal : (2 * n * numK) * (32 * g * numN) ≤ 2 ^ 32) :
    entryAt (computeOffsetsTy2 (2 * n, 32) w l g n (numK, numN) cs)
        (numK * n * b + n * t + k) =
      some ((t * (2 * n) + ((if l ≥ 32 then n else 0) + k)) * (32 * g * numN)
        + ((w + b * g) * 32 + l % 32)) := by
  obtain ⟨hR, hC⟩ := rowcol_range g numN numK n w l b t k hw hb ht hk
  have hlt := lin_bound _ _ _ _ hC hR
  rw [entryAt_ty2 (2 * n, 32) w l g n (numK, numN) cs b t k hb ht hk]
  simp only
  have e : w * 32 + b * 32 * g + t * (2 * n) * (g * 32 * numN)
        + (k * (g * 32 * numN) + (if l ≥ 32 then n * (g * 32 * numN) else 0) + l % 32)
      = (t * (2 * n) + ((if l ≥ 32 then n else 0) + k)) * (32 * g * numN)
        + ((w + b * g) * 32 + l % 32) := by
    split <;> ring
  rw [e, Nat.mod_eq_of_lt (by omega)]

/-- C16, as stated, fails, in two ways. The offsets are 32-bit values: with
`elemsPerLane = 1`, `g = 2 ^ 27` and repetitions `(1, 1)` the tile has `2 ^ 33` elements and
the wave coordinates `0` and `2 ^ 26` get the same offset `0` for lane `0`, so the map is not
injective. And the offsets are signed: with `g = 2 ^ 25 + 1` the tile has `2 ^ 31 + 64`
elements and wave coordinate `2 ^ 25`, lane `0` gets the 32-bit pattern `2 ^ 31`, which read
as a signed value is `-2 ^ 31`, outside the tile. -/
theorem layout1_exact_coverage_counterexample :
    ¬ ExactCoverage
      (fun w l o i k =>
        entryAt (computeOffsetsTy1 (32, 2 * 1) w l 134217728 1 (1, 1) 0)
          (1 * 1 * o + 1 * i + k))
      134217728 1 1 1 ((32 * 134217728 * 1) * (2 * 1 * 1)) ∧
    computeOffsetsTy1 (32, 2 * 1) 33554432 0 33554433 1 (1, 1) 0 = .ok [some 2147483648] ∧
    toInt 2147483648 = -2147483648 := by
  refine ⟨?_, by decide, by decide⟩
  intro h
  have := (h.2.1 0 0 0 0 0 67108864 0 0 0 0 (by decide) (by decide) (by decide) (by decide)
    (by decide) (by decide) (by decide) (by decide) (by decide) (by decide) (by decide)).1
  exact absurd this (by decide)

/-- C16, amended. Exact coverage by the layout-1 engine under the MFMA geometry, in a tile of
at most `2 ^ 31` elements (the offsets are signed 32-bit values): with `e0 = 32`,
`e1 = 2 * elemsPerLane` and `g` cooperating warps, the map from (wave coordinate below `g`,
lane below 64, `o < numOuter`, `i < numInner`, `k < elemsPerLane`) to the offset the engine
returns is a bijection onto `[0, (32 * g * numOuter) * (2 * elemsPerLane * numInner))`. -/
theorem layout1_exact_coverage (n g numOuter numInner cs : Nat)
    (htotal : (32 * g * numOuter) * (2 * n * numInner) ≤ 2 ^ 31) :
    ExactCoverage
      (fun w l o i k =>
        entryAt (computeOffsetsTy1 (32, 2 * n) w l g n (numOuter, numInner) cs)
          (numInner * n * o + n * i + k))
      g numOuter numInner n ((32 * g * numOuter) * (2 * n * numInner)) := by
  have ht32 : (32 * g * numOuter) * (2 * n * numInner) ≤ 2 ^ 32 := by omega
  refine ⟨?_, ?_, ?_⟩
  · intro w l o i k hw _ ho hi hk
    obtain ⟨hR, hC⟩ := rowcol_range g numOuter numInner n w l o i k hw ho hi hk
    exact ⟨_, ty1_value n g numOuter numInner cs w l o i k hw ho hi hk ht32,
      lin_bound _ _ _ _ hR hC⟩
  · intro w l o i k w' l' o' i' k' hw hl ho hi hk hw' hl' ho' hi' hk' heq
    simp only at heq
    rw [ty1_value n g numOuter numInner cs w l o i k hw ho hi hk ht32,
      ty1_value n g numOuter numInner cs w' l' o' i' k' hw' ho' hi' hk' ht32] at heq
    obtain ⟨_, hC⟩ := rowcol_range g numOuter numInner n w l o i k hw ho hi hk
    obtain ⟨_, hC'⟩ := rowcol_range g numOuter numInner n w' l' o' i' k' hw' ho' hi' hk'
    obtain ⟨eR, eC⟩ := lin_unique _ _ _ _ _ hC hC' (Option.some.inj heq)
    exact rowcol_inj g n w l o i k w' l' o' i' k' hw hl hk hw' hl' hk' eR eC
  · intro v hv
    obtain ⟨R, C, hR, hC, hRC⟩ := pair_surj _ _ v hv
    obtain ⟨w, l, o, i, k, hw, hl, ho, hi, hk, eR, eC⟩ :=
      rowcol_surj g numOuter numInner n R C hR hC
    refine ⟨w, l, o, i, k, hw, hl, ho, hi, hk, ?_⟩
    simp only
    rw [ty1_value n g numOuter numInner cs w l o i k hw ho hi hk ht32, eR, eC, hRC]

theorem layout1_exact_coverage_witness :
    (32 * 2 * 2) * (2 * 4 * 3) ≤ 2 ^ 31 ∧
    ExactCoverage
      (fun w l o i k =>
        entryAt (computeOffsetsTy1 (32, 2 * 4) w l 2 4 (2, 3) 0) (3 * 4 * o + 4 * i + k))
      2 2 3 4 ((32 * 2 * 2) * (2 * 4 * 3)) :=
  ⟨by decide, layout1_exact_coverage 4 2 2 3 0 (by decide)⟩

/-- C17, as stated, fails, in two ways. The offsets are 32-bit values: with
`elemsPerLane = 1`, `g = 2 ^ 27` and `reps = (1, 1)` the line length `2 ^ 27 * 32 = 2 ^ 32` is
reduced to `0` and lanes `0` and `32` of wave coordinate `0` get the same offset `0`, so the
map is not injective. And the offsets are signed: with `g = 2 ^ 25 + 1` the tile has
`2 ^ 31 + 64` elements and wave coordinate `2 ^ 25`, lane `63` gets the 32-bit pattern
`2 ^ 31 + 63`, which read as a signed value is negative, outside the tile. -/
theorem layout2_exact_coverage_counterexample :
    ¬ ExactCoverage
      (fun w l block tile k =>
        entryAt (computeOffsetsTy2 (2 * 1, 32) w l 134217728 1 (1, 1) 0)
          (1 * 1 * block + 1 * tile + k))
      134217728 1 1 1 ((2 * 1 * 1) * (32 * 134217728 * 1)) ∧
    computeOffsetsTy2 (2 * 1, 32) 33554432 63 33554433 1 (1, 1) 0 = .ok [some 2147483711] ∧
    toInt 2147483711 = -2147483585 := by
  refine ⟨?_, by decide, by decide⟩
  intro h
  have := (h.2.1 0 0 0 0 0 0 32 0 0 0 (by decide) (by decide) (by decide) (by decide)
    (by decide) (by decide) (by decide) (by decide) (by decide) (by decide) (by decide)).2.1
  exact absurd this (by decide)

/-- C17, amended. Exact coverage by the layout-2 engine under the MFMA geometry, in a tile of
at most `2 ^ 31` elements (the offsets are signed 32-bit values): with `e1 = 32`,
`e0 = 2 * elemsPerLane`, `g` cooperating warps and `reps = (numK, numN)`, the map from (wave
coordinate below `g`, lane below 64, `block < numN`, `tile < numK`, `k < elemsPerLane`) to the
offset the engine returns is a bijection onto
`[0, (2 * elemsPerLane * numK) * (32 * g * numN))`. -/
theorem layout2_exact_coverage (n g numK numN cs : Nat)
    (htotal : (2 * n * numK) * (32 * g * numN) ≤ 2 ^ 31) :
    ExactCoverage
      (fun w l block tile k =>
        entryAt (computeOffsetsTy2 (2 * n, 32) w l g n (numK, numN) cs)
          (numK * n * block + n * tile + k))
      g numN numK n ((2 * n * numK) * (32 * g * numN)) := by
  have ht32 : (2 * n * numK) * (32 * g * numN) ≤ 2 ^ 32 := by omega
  refine ⟨?_, ?_, ?_⟩
  · intro w l b t k hw _ hb ht hk
    obtain ⟨hR, hC⟩ := rowcol_range g numN numK n w l b t k hw hb ht hk
    exact ⟨_, ty2_value n g numK numN cs w l b t k hw hb ht hk ht32,
      lin_bound _ _ _ _ hC hR⟩
  · intro w l b t k w' l' b' t' k' hw hl hb ht hk hw' hl' hb' ht' hk' heq
    simp only at heq
    rw [ty2_value n g numK numN cs w l b t k hw hb ht hk ht32,
      ty2_value n g numK numN cs w' l' b' t' k' hw' hb' ht' hk' ht32] at heq
    obtain ⟨hR, _⟩ := rowcol_range g numN numK n w l b t k hw hb ht hk
    obtain ⟨hR', _⟩ := rowcol_range g numN numK n w' l' b' t' k' hw' hb' ht' hk'
    obtain ⟨eC, eR⟩ := lin_unique _ _ _ _ _ hR hR' (Option.some.inj heq)
    exact rowcol_inj g n w l b t k w' l' b' t' k' hw hl hk hw' hl' hk' eR eC
  · intro v hv
    obtain ⟨C, R, hC, hR, hCR⟩ := pair_surj _ _ v hv
    obtain ⟨w, l, b, t, k, hw, hl, hb, ht, hk, eR, eC⟩ :=
      rowcol_surj g numN numK n R C hR hC
    refine ⟨w, l, b, t, k, hw, hl, hb, ht, hk, ?_⟩
    simp only
    rw [ty2_value n g numK numN cs w l b t k hw hb ht hk ht32, eR, eC, hCR]

theorem layout2_exact_coverage_witness :
    (2 * 4 * 3) * (32 * 2 * 2) ≤ 2 ^ 31 ∧
    ExactCoverage
      (fun w l block tile k =>
        entryAt (computeOffsetsTy2 (2 * 4, 32) w l 2 4 (3, 2) 0)
          (3 * 4 * block + 4 * tile + k))
      2 2 3 4 ((2 * 4 * 3) * (32 * 2 * 2)) :=
  ⟨by decide, layout2_exact_coverage 4 2 3 2 0 (by decide)⟩

end SharedToDotOperandMFMA
